import Mathlib

set_option maxRecDepth 100000

/-!
Verification of the query-scoped data-accumulation and deduplication pipeline
of the investor-directory application.

The definitions below are a shallow embedding of the TypeScript sources:

* `src/lib/investor-utils.ts` (normalization, id generation, completeness,
  merge utilities, deduplication),
* `src/lib/scraper-job.ts` (the accumulation job: single-flight coalescing,
  batch processing, in-batch duplicate merging, catch/finally cleanup),
* `src/app/api/search/route.ts` (the search route: keyword matcher and the
  cache-fallback policy around the OpenAI call).

Modelling conventions:

* JavaScript `string | undefined` fields become `Option String`; `undefined`
  is `none`.  JS string truthiness (`""` is falsy) is `jsTruthyStr`.
  `a || b` on such values is `jsOrStr`.
* A JS object key that is absent and a key that is present with value
  `undefined` are both modelled as `none`; an object's `Object.keys` count
  is the number of fields that are not `none`.
* JS `Map` (which preserves first-insertion order, updating a key in place)
  is modelled as an association list, `alSet` updating in place.
* `crypto.createHash("md5")` is embedded as an executable MD5 over the
  UTF-8 bytes of the input, with 32-bit words represented as `Nat` values
  reduced modulo `2 ^ 32`.
* External effects (Redis, the OpenAI call, file writes, the progress
  side-channel) are passed in as explicit parameters; fallible external
  calls are `Except Unit`-valued.
-/

namespace InvestorApp

/-! ### JS value helpers -/

/-- Truthiness of a JS `string | undefined` value: `undefined` and `""` are falsy. -/
def jsTruthyStr (o : Option String) : Bool :=
  match o with
  | none => false
  | some s => !s.isEmpty

/-- JS `a || b` for `string | undefined` values. -/
def jsOrStr (a b : Option String) : Option String :=
  if jsTruthyStr a then a else b

/-- JS `a?.length > 0` for `string[] | undefined` values. -/
def jsListNonempty (o : Option (List String)) : Bool :=
  match o with
  | none => false
  | some l => decide (l.length > 0)

/-- Length of a possibly-undefined string, JS `s?.length || 0`. -/
def jsStrLen (o : Option String) : Nat :=
  (o.getD "").length

/-- `s.toLowerCase()`, implemented over the character list so that the kernel
can evaluate it (the library `String.toLower` is not kernel-reducible). -/
def jsToLower (s : String) : String :=
  String.mk (s.data.map Char.toLower)

/-- `s.trim()`: drop whitespace from both ends, over the character list. -/
def jsTrim (s : String) : String :=
  String.mk (((s.data.dropWhile Char.isWhitespace).reverse.dropWhile
    Char.isWhitespace).reverse)

/-- `s.toLowerCase().trim()`. -/
def jsLowerTrim (s : String) : String :=
  jsTrim (jsToLower s)

/-- `l.join(" ")`. -/
def joinSpace (l : List String) : String :=
  String.mk (List.intercalate [' '] (l.map String.data))

/-- Whether `pat` is a prefix of `s`. -/
def listIsPrefix : List Char → List Char → Bool
  | [], _ => true
  | _ :: _, [] => false
  | a :: as, b :: bs => a == b && listIsPrefix as bs

/-- Whether `pat` occurs as a contiguous run inside `s`. -/
def listHasInfix (pat : List Char) : List Char → Bool
  | [] => pat.isEmpty
  | c :: rest => listIsPrefix pat (c :: rest) || listHasInfix pat rest

/-- Split on single whitespace characters, keeping empty tokens; composed with
the length-`> 2` filter below this coincides with JS `split(/\s+/)`. -/
def splitOnWs : List Char → List Char → List String
  | [], acc => [String.mk acc.reverse]
  | c :: rest, acc =>
    if c.isWhitespace then String.mk acc.reverse :: splitOnWs rest []
    else splitOnWs rest (c :: acc)

/-! ### MD5 (embedding of node's `crypto.createHash("md5")`) -/

namespace MD5

def wordMod : Nat := 4294967296

def add32 (a b : Nat) : Nat := (a + b) % wordMod

def not32 (x : Nat) : Nat := x ^^^ 4294967295

def rotl32 (x n : Nat) : Nat :=
  ((x <<< n) % wordMod) ||| (x >>> (32 - n))

/-- Per-round left-rotation amounts (RFC 1321). -/
def shiftTable : List Nat :=
  [7, 12, 17, 22, 7, 12, 17, 22, 7, 12, 17, 22, 7, 12, 17, 22,
   5, 9, 14, 20, 5, 9, 14, 20, 5, 9, 14, 20, 5, 9, 14, 20,
   4, 11, 16, 23, 4, 11, 16, 23, 4, 11, 16, 23, 4, 11, 16, 23,
   6, 10, 15, 21, 6, 10, 15, 21, 6, 10, 15, 21, 6, 10, 15, 21]

/-- Per-round additive constants, `floor(abs(sin(i+1)) * 2^32)` (RFC 1321). -/
def kTable : List Nat :=
  [3614090360, 3905402710, 606105819, 3250441966, 4118548399, 1200080426, 2821735955, 4249261313,
   1770035416, 2336552879, 4294925233, 2304563134, 1804603682, 4254626195, 2792965006, 1236535329,
   4129170786, 3225465664, 643717713, 3921069994, 3593408605, 38016083, 3634488961, 3889429448,
   568446438, 3275163606, 4107603335, 1163531501, 2850285829, 4243563512, 1735328473, 2368359562,
   4294588738, 2272392833, 1839030562, 4259657740, 2763975236, 1272893353, 4139469664, 3200236656,
   681279174, 3936430074, 3572445317, 76029189, 3654602809, 3873151461, 530742520, 3299628645,
   4096336452, 1126891415, 2878612391, 4237533241, 1700485571, 2399980690, 4293915773, 2240044497,
   1873313359, 4264355552, 2734768916, 1309151649, 4149444226, 3174756917, 718787259, 3951481745]

/-- Mixing function and message-word index for round `i`, given state words `b c d`. -/
def roundMix (i b c d : Nat) : Nat × Nat :=
  if i < 16 then ((b &&& c) ||| (not32 b &&& d), i)
  else if i < 32 then ((d &&& b) ||| (not32 d &&& c), (5 * i + 1) % 16)
  else if i < 48 then (b ^^^ c ^^^ d, (3 * i + 5) % 16)
  else (c ^^^ (b ||| not32 d), (7 * i) % 16)

/-- Little-endian 32-bit word at index `g` of a 64-byte block. -/
def blockWord (block : List Nat) (g : Nat) : Nat :=
  block.getD (4 * g) 0 + 256 * block.getD (4 * g + 1) 0 +
    65536 * block.getD (4 * g + 2) 0 + 16777216 * block.getD (4 * g + 3) 0

/-- One of the 64 MD5 rounds. -/
def step (block : List Nat) (st : Nat × Nat × Nat × Nat) (i : Nat) : Nat × Nat × Nat × Nat :=
  let (a, b, c, d) := st
  let (f, g) := roundMix i b c d
  let rot := rotl32 (add32 (add32 (add32 a f) (kTable.getD i 0)) (blockWord block g))
    (shiftTable.getD i 0)
  (d, add32 b rot, b, c)

/-- Process one 64-byte block, updating the accumulated state. -/
def processBlock (st : Nat × Nat × Nat × Nat) (block : List Nat) : Nat × Nat × Nat × Nat :=
  let (a0, b0, c0, d0) := st
  let (a, b, c, d) := (List.range 64).foldl (step block) (a0, b0, c0, d0)
  (add32 a0 a, add32 b0 b, add32 c0 c, add32 d0 d)

/-- Split into 64-byte blocks, with a structural fuel argument so the kernel
can evaluate the definition. -/
def toBlocksAux : Nat → List Nat → List (List Nat)
  | 0, _ => []
  | fuel + 1, bytes =>
    if bytes.length = 0 then []
    else bytes.take 64 :: toBlocksAux fuel (bytes.drop 64)

/-- Split the padded message into 64-byte blocks. -/
def toBlocks (bytes : List Nat) : List (List Nat) :=
  toBlocksAux bytes.length bytes

/-- Little-endian bytes of a 64-bit quantity. -/
def lenBytes (n : Nat) : List Nat :=
  [n % 256, n / 256 % 256, n / 65536 % 256, n / 16777216 % 256,
   n / 4294967296 % 256, n / 1099511627776 % 256,
   n / 281474976710656 % 256, n / 72057594037927936 % 256]

/-- MD5 padding: `0x80`, zeros to 56 mod 64, then the bit length little-endian. -/
def pad (msg : List Nat) : List Nat :=
  let zeroCount := (55 + 64 - msg.length % 64) % 64
  msg ++ [128] ++ List.replicate zeroCount 0 ++ lenBytes (8 * msg.length % 18446744073709551616)

/-- Little-endian bytes of a 32-bit word. -/
def wordBytesLE (x : Nat) : List Nat :=
  [x % 256, x / 256 % 256, x / 65536 % 256, x / 16777216 % 256]

/-- Digest bytes (16 of them) of a message given as a byte list. -/
def digestBytes (msg : List Nat) : List Nat :=
  let (a, b, c, d) := (toBlocks (pad msg)).foldl processBlock
    (1732584193, 4023233417, 2562383102, 271733878)
  wordBytesLE a ++ wordBytesLE b ++ wordBytesLE c ++ wordBytesLE d

def hexDigit (n : Nat) : Char :=
  "0123456789abcdef".toList.getD n '0'

def byteHex (b : Nat) : List Char :=
  [hexDigit (b / 16 % 16), hexDigit (b % 16)]

/-- Lowercase hex characters of a digest, `digest("hex")` in node. -/
def hexChars (msg : List Nat) : List Char :=
  (digestBytes msg).flatMap byteHex

end MD5

/-- UTF-8 bytes of one character. -/
def utf8CharBytes (c : Char) : List Nat :=
  let n := c.toNat
  if n < 128 then [n]
  else if n < 2048 then [192 ||| (n >>> 6), 128 ||| (n &&& 63)]
  else if n < 65536 then
    [224 ||| (n >>> 12), 128 ||| ((n >>> 6) &&& 63), 128 ||| (n &&& 63)]
  else
    [240 ||| (n >>> 18), 128 ||| ((n >>> 12) &&& 63), 128 ||| ((n >>> 6) &&& 63),
     128 ||| (n &&& 63)]

/-- UTF-8 bytes of a string (what node's `hash.update(string)` consumes). -/
def utf8Bytes (s : String) : List Nat :=
  s.toList.flatMap utf8CharBytes

/-- Hex MD5 digest of a string, `crypto.createHash("md5").update(s).digest("hex")`. -/
def md5HexChars (s : String) : List Char :=
  MD5.hexChars (utf8Bytes s)

/-! ### Data model (`src/lib/db.ts`, `src/lib/scraper.ts`, `src/lib/openai-search.ts`) -/

/-- The `contactInfo` member of `Investor` in `db.ts`. -/
structure ContactInfo where
  email : Option String
  linkedin : Option String
  twitter : Option String
  website : Option String
  other : Option (List String)
deriving Repr, DecidableEq

/-- The `contactInfo` member of `ScrapedInvestorData` in `scraper.ts` (no `other`). -/
structure SContactInfo where
  email : Option String
  linkedin : Option String
  twitter : Option String
  website : Option String
deriving Repr, DecidableEq

/-- The nested `profile` member of `Investor` in `db.ts`. -/
structure Profile where
  investmentStage : Option (List String)
  checkSize : Option String
  geographicFocus : Option (List String)
  portfolio : Option (List String)
  investmentPhilosophy : Option String
  fundingSource : Option String
  exitExpectations : Option String
  decisionProcess : Option String
  decisionSpeed : Option String
  reputation : Option String
  network : Option String
  tractionRequired : Option String
  boardParticipation : Option String
deriving Repr, DecidableEq

/-- Count of 1 for a present field, 0 for an absent one. -/
def keyOf {α : Type} (o : Option α) : Nat :=
  match o with
  | none => 0
  | some _ => 1

/-- `Object.keys(profile).length` in the 13-field model: the number of fields
that are present (a key present with value `undefined` is identified with an
absent key). -/
def Profile.keyCount (p : Profile) : Nat :=
  keyOf p.investmentStage + keyOf p.checkSize + keyOf p.geographicFocus + keyOf p.portfolio +
    keyOf p.investmentPhilosophy + keyOf p.fundingSource + keyOf p.exitExpectations +
    keyOf p.decisionProcess + keyOf p.decisionSpeed + keyOf p.reputation + keyOf p.network +
    keyOf p.tractionRequired + keyOf p.boardParticipation

/-- The profile with no keys, `{}`. -/
def emptyProfile : Profile :=
  ⟨none, none, none, none, none, none, none, none, none, none, none, none, none⟩

/-- The `Investor` interface of `db.ts`. -/
structure Investor where
  id : String
  name : String
  bio : Option String
  fullBio : Option String
  location : Option String
  image : Option String
  interests : List String
  contactInfo : ContactInfo
  profile : Option Profile
  source : String
  scrapedAt : String
  lastUpdated : String
deriving Repr, DecidableEq

/-- The `ScrapedInvestorData` interface of `scraper.ts`, extended with the
`_interests` and `_profile` members that `openai-search.ts` attaches
(`OpenAIInvestorData`), and the `fullBio`/`image` members its results carry. -/
structure ScrapedInvestorData where
  name : String
  bio : Option String
  fullBio : Option String
  location : Option String
  image : Option String
  rawText : String
  source : String
  contactInfo : Option SContactInfo
  extraInterests : Option (List String)
  extraProfile : Option Profile
deriving Repr, DecidableEq

/-- Embedding of `getInterestsFromOpenAIResponse` (`openai-search.ts`):
`extended._interests || []` where `extraInterests` embeds `_interests`. -/
def getInterestsFromOpenAIResponse (d : ScrapedInvestorData) : List String :=
  d.extraInterests.getD []

/-- JS `data._profile || {}` where `extraProfile` embeds `_profile`. -/
def getProfileData (d : ScrapedInvestorData) : Profile :=
  d.extraProfile.getD emptyProfile

/-! ### Identity and merge utilities (`src/lib/investor-utils.ts`) -/

/-- Embedding of `normalizeInvestorName`: lower-case then trim.  The
null/undefined/non-string guard of the source collapses here because those
inputs are modelled as `""`, which normalizes to `""` anyway. -/
def normalizeInvestorName (name : String) : String :=
  jsLowerTrim name

/-- Embedding of `generateInvestorId`: the first 12 hex characters of the MD5
digest of `name + "-" + source`. -/
def generateInvestorId (name source : String) : String :=
  String.mk ((md5HexChars (name ++ "-" ++ source)).take 12)

/-- The `generateId` helper in `scraper-job.ts` has the same body as
`generateInvestorId`. -/
def generateId (name source : String) : String :=
  generateInvestorId name source

/-- Embedding of `calculateInvestorCompleteness`: bio length plus extended-bio
length plus profile key count. -/
def calculateInvestorCompleteness (investor : Investor) : Nat :=
  jsStrLen investor.bio + jsStrLen investor.fullBio +
    (match investor.profile with
     | none => 0
     | some p => p.keyCount)

/-- Embedding of `mergeContactInfo`: each field prefers the incoming value when
truthy; the existing `other` list is always preserved (`existing?.other || []`). -/
def mergeContactInfo (existing : Option ContactInfo) (newData : Option SContactInfo) :
    ContactInfo :=
  { email := jsOrStr (newData.bind (·.email)) (existing.bind (·.email))
    linkedin := jsOrStr (newData.bind (·.linkedin)) (existing.bind (·.linkedin))
    twitter := jsOrStr (newData.bind (·.twitter)) (existing.bind (·.twitter))
    website := jsOrStr (newData.bind (·.website)) (existing.bind (·.website))
    other := some (((existing.bind (·.other)).getD [])) }

/-- First-occurrence deduplication with an accumulator of already-seen
elements; models the iteration order of `[...new Set(l)]`. -/
def jsSetDedupAux (seen : List String) : List String → List String
  | [] => []
  | a :: rest =>
    if a ∈ seen then jsSetDedupAux seen rest
    else a :: jsSetDedupAux (a :: seen) rest

/-- JS `[...new Set(l)]`: keeps the first occurrence of each element. -/
def jsSetDedup (l : List String) : List String :=
  jsSetDedupAux [] l

/-- Embedding of `mergeInterests`: existing unchanged when the incoming list is
empty, otherwise the insertion-ordered deduplicated union. -/
def mergeInterests (existing newInterests : List String) : List String :=
  if newInterests.length = 0 then existing
  else jsSetDedup (existing ++ newInterests)

/-- JS `cond ? a : b` for `newList?.length > 0 ? newList : oldList`. -/
def preferNonemptyList (newList oldList : Option (List String)) : Option (List String) :=
  if jsListNonempty newList then newList else oldList

/-- Embedding of `mergeProfile`: existing when the incoming profile is absent or
empty; the incoming profile wholesale when the existing one is absent; otherwise
field-wise, lists preferred when non-empty and scalars when truthy. -/
def mergeProfile : Option Profile → Option Profile → Option Profile
  | existing, none => existing
  | none, some np => if np.keyCount = 0 then none else some np
  | some ex, some np =>
    if np.keyCount = 0 then some ex
    else
      some
        { investmentStage := preferNonemptyList np.investmentStage ex.investmentStage
          checkSize := jsOrStr np.checkSize ex.checkSize
          geographicFocus := preferNonemptyList np.geographicFocus ex.geographicFocus
          portfolio := preferNonemptyList np.portfolio ex.portfolio
          investmentPhilosophy := jsOrStr np.investmentPhilosophy ex.investmentPhilosophy
          fundingSource := jsOrStr np.fundingSource ex.fundingSource
          exitExpectations := jsOrStr np.exitExpectations ex.exitExpectations
          decisionProcess := jsOrStr np.decisionProcess ex.decisionProcess
          decisionSpeed := jsOrStr np.decisionSpeed ex.decisionSpeed
          reputation := jsOrStr np.reputation ex.reputation
          network := jsOrStr np.network ex.network
          tractionRequired := jsOrStr np.tractionRequired ex.tractionRequired
          boardParticipation := jsOrStr np.boardParticipation ex.boardParticipation }

/-- The `newData` argument of `mergeInvestors`:
`Partial<Investor> & { bio?; fullBio?; location?; image? }`, restricted to the
members the function reads. -/
structure NewData where
  bio : Option String
  fullBio : Option String
  location : Option String
  image : Option String
  contactInfo : Option SContactInfo
deriving Repr, DecidableEq

/-- JS `newBio && (!oldBio || newBio.length > oldBio.length) ? newBio : oldBio`. -/
def mergeBioField (newBio oldBio : Option String) : Option String :=
  if jsTruthyStr newBio && (!jsTruthyStr oldBio || decide (jsStrLen newBio > jsStrLen oldBio))
  then newBio else oldBio

/-- Embedding of `mergeInvestors` (`investor-utils.ts`). -/
def mergeInvestors (existing : Investor) (newData : NewData) (interests : List String)
    (profileData : Option Profile) (now : String) : Investor :=
  { existing with
    bio := mergeBioField newData.bio existing.bio
    fullBio := mergeBioField newData.fullBio existing.fullBio
    location := jsOrStr newData.location existing.location
    image := jsOrStr newData.image existing.image
    interests := mergeInterests existing.interests interests
    profile := mergeProfile existing.profile profileData
    contactInfo := mergeContactInfo (some existing.contactInfo) newData.contactInfo
    lastUpdated := now }

/-! ### Deduplication (`deduplicateInvestors` in `investor-utils.ts`)

A JS `Map` is modelled as an association list: `Map.prototype.set` updates an
existing key in place (preserving first-insertion order) and appends a fresh
key; `Map.prototype.values()` iterates in that order. -/

def alGet {α : Type} (m : List (String × α)) (k : String) : Option α :=
  match m with
  | [] => none
  | (k', v) :: rest => if k' = k then some v else alGet rest k

def alSet {α : Type} (m : List (String × α)) (k : String) (v : α) : List (String × α) :=
  match m with
  | [] => [(k, v)]
  | (k', v') :: rest => if k' = k then (k, v) :: rest else (k', v') :: alSet rest k v

/-- Result record of `deduplicateInvestors`. -/
structure DedupResult where
  unique : List Investor
  duplicatesRemoved : Nat
  invalidRemoved : Nat
deriving Repr, DecidableEq

/-- The loop of `deduplicateInvestors`.  The source's
`!investor || !investor.name || typeof investor.name !== "string"` guard
collapses into the `normalizedName` emptiness check here, because a missing or
non-string name is modelled as `""` and `normalizeInvestorName "" = ""`. -/
def dedupLoop :
    List Investor → List (String × Investor) → Nat → Nat →
      List (String × Investor) × Nat × Nat
  | [], m, dups, invalid => (m, dups, invalid)
  | investor :: rest, m, dups, invalid =>
    if normalizeInvestorName investor.name = "" then dedupLoop rest m dups (invalid + 1)
    else
      match alGet m (normalizeInvestorName investor.name) with
      | none => dedupLoop rest (alSet m (normalizeInvestorName investor.name) investor) dups invalid
      | some existing =>
        if calculateInvestorCompleteness investor > calculateInvestorCompleteness existing
        then dedupLoop rest (alSet m (normalizeInvestorName investor.name) investor) (dups + 1)
          invalid
        else dedupLoop rest m (dups + 1) invalid

/-- Embedding of `deduplicateInvestors`. -/
def deduplicateInvestors (investors : List Investor) : DedupResult :=
  let r := dedupLoop investors [] 0 0
  ⟨r.1.map Prod.snd, r.2.1, r.2.2⟩

/-- Embedding of `isValidInvestorData`: the name is a non-empty string whose
trimmed form is non-empty. -/
def isValidInvestorData (d : ScrapedInvestorData) : Bool :=
  !d.name.isEmpty && decide ((jsTrim d.name).length > 0)

/-- Embedding of `findInvestorByName`. -/
def findInvestorByName (investors : List Investor) (name : String) : Option Investor :=
  let nn := normalizeInvestorName name
  if nn = "" then none
  else investors.find? (fun inv => decide (normalizeInvestorName inv.name = nn))

/-! ### The accumulation job (`src/lib/scraper-job.ts`) -/

/-- JS `{...old, ...new}` on one object key: the incoming key wins whenever it
is present. -/
def jsSpreadField {α : Type} (old new : Option α) : Option α :=
  match new with
  | some v => some v
  | none => old

/-- JS `{...a, ...b}` on two profiles. -/
def spreadProfile (a b : Profile) : Profile :=
  { investmentStage := jsSpreadField a.investmentStage b.investmentStage
    checkSize := jsSpreadField a.checkSize b.checkSize
    geographicFocus := jsSpreadField a.geographicFocus b.geographicFocus
    portfolio := jsSpreadField a.portfolio b.portfolio
    investmentPhilosophy := jsSpreadField a.investmentPhilosophy b.investmentPhilosophy
    fundingSource := jsSpreadField a.fundingSource b.fundingSource
    exitExpectations := jsSpreadField a.exitExpectations b.exitExpectations
    decisionProcess := jsSpreadField a.decisionProcess b.decisionProcess
    decisionSpeed := jsSpreadField a.decisionSpeed b.decisionSpeed
    reputation := jsSpreadField a.reputation b.reputation
    network := jsSpreadField a.network b.network
    tractionRequired := jsSpreadField a.tractionRequired b.tractionRequired
    boardParticipation := jsSpreadField a.boardParticipation b.boardParticipation }

/-- The merge of new scraped data into an investor found in the persisted set
(`runScrapingJob`, the `existingInvestor` branch).  The per-field constructions
are the same as `mergeContactInfo`/`mergeBioField`/`mergeInterests`; the profile
is merged field-wise against `existingInvestor.profile?.<field>`. -/
def mergeExistingJob (existingInvestor : Investor) (data : ScrapedInvestorData)
    (interests : List String) (profileData : Profile) (now : String) : Investor :=
  { existingInvestor with
    bio := mergeBioField data.bio existingInvestor.bio
    fullBio := mergeBioField data.fullBio existingInvestor.fullBio
    location := jsOrStr data.location existingInvestor.location
    image := jsOrStr data.image existingInvestor.image
    interests := mergeInterests existingInvestor.interests interests
    profile :=
      if profileData.keyCount > 0 then
        some
          { investmentStage :=
              preferNonemptyList profileData.investmentStage
                (existingInvestor.profile.bind (·.investmentStage))
            checkSize := jsOrStr profileData.checkSize (existingInvestor.profile.bind (·.checkSize))
            geographicFocus :=
              preferNonemptyList profileData.geographicFocus
                (existingInvestor.profile.bind (·.geographicFocus))
            portfolio :=
              preferNonemptyList profileData.portfolio (existingInvestor.profile.bind (·.portfolio))
            investmentPhilosophy :=
              jsOrStr profileData.investmentPhilosophy
                (existingInvestor.profile.bind (·.investmentPhilosophy))
            fundingSource :=
              jsOrStr profileData.fundingSource (existingInvestor.profile.bind (·.fundingSource))
            exitExpectations :=
              jsOrStr profileData.exitExpectations
                (existingInvestor.profile.bind (·.exitExpectations))
            decisionProcess :=
              jsOrStr profileData.decisionProcess (existingInvestor.profile.bind (·.decisionProcess))
            decisionSpeed :=
              jsOrStr profileData.decisionSpeed (existingInvestor.profile.bind (·.decisionSpeed))
            reputation := jsOrStr profileData.reputation (existingInvestor.profile.bind (·.reputation))
            network := jsOrStr profileData.network (existingInvestor.profile.bind (·.network))
            tractionRequired :=
              jsOrStr profileData.tractionRequired
                (existingInvestor.profile.bind (·.tractionRequired))
            boardParticipation :=
              jsOrStr profileData.boardParticipation
                (existingInvestor.profile.bind (·.boardParticipation)) }
      else existingInvestor.profile
    contactInfo := mergeContactInfo (some existingInvestor.contactInfo) data.contactInfo
    lastUpdated := now }

/-- The in-batch merge of a duplicate into an investor already added in the same
run (`runScrapingJob`, the `alreadyAdded` branch).  Unlike `mergeExistingJob`,
the profile is a blind spread `{...alreadyAdded.profile, ...profileData}`. -/
def batchMergeInvestor (alreadyAdded : Investor) (data : ScrapedInvestorData)
    (interests : List String) (profileData : Profile) (now : String) : Investor :=
  { alreadyAdded with
    bio := mergeBioField data.bio alreadyAdded.bio
    fullBio := mergeBioField data.fullBio alreadyAdded.fullBio
    location := jsOrStr data.location alreadyAdded.location
    image := jsOrStr data.image alreadyAdded.image
    interests := mergeInterests alreadyAdded.interests interests
    profile :=
      if profileData.keyCount > 0 then
        some (spreadProfile (alreadyAdded.profile.getD emptyProfile) profileData)
      else alreadyAdded.profile
    contactInfo := mergeContactInfo (some alreadyAdded.contactInfo) data.contactInfo
    lastUpdated := now }

/-- The brand-new investor record built in `runScrapingJob` (lines 278-314). -/
def newInvestorFromData (id : String) (data : ScrapedInvestorData) (interests : List String)
    (profileData : Profile) (now : String) : Investor :=
  { id := id
    name := data.name
    bio := data.bio
    fullBio := data.fullBio
    location := data.location
    image := data.image
    interests := interests
    profile := if profileData.keyCount > 0 then some profileData else none
    contactInfo :=
      { email := data.contactInfo.bind (·.email)
        linkedin := data.contactInfo.bind (·.linkedin)
        twitter := data.contactInfo.bind (·.twitter)
        website := data.contactInfo.bind (·.website)
        other := none }
    source := data.source
    scrapedAt := now
    lastUpdated := now }

/-- The interests map first built from the OpenAI response
(`interestsMap.set(data.name, { interests })` over the batch). -/
def buildInterestsMap (scraped : List ScrapedInvestorData) : List (String × List String) :=
  scraped.foldl (fun m d => alSet m d.name (getInterestsFromOpenAIResponse d)) []

/-- `existingInvestorsMap`: the persisted investors keyed by id. -/
def buildByIdMap (investors : List Investor) : List (String × Investor) :=
  investors.foldl (fun m inv => alSet m inv.id inv) []

/-- `newInvestors[index] = mergedInvestor` after
`findIndex((inv) => inv.id === alreadyAdded.id)`: replace the first entry with
the given id, or leave the list unchanged when the id does not occur. -/
def replaceFirstById (l : List Investor) (tid : String) (v : Investor) : List Investor :=
  match l with
  | [] => []
  | a :: rest => if a.id = tid then v :: rest else a :: replaceFirstById rest tid v

/-- One iteration of the candidate-processing loop of `runScrapingJob`
(lines 169-318): resolve identity by id, then by normalized name against the
persisted set, then against the records already added in this batch. -/
def processOne (existingById : List (String × Investor))
    (interestsMap : List (String × List String)) (now : String)
    (newInvestors : List Investor) (data : ScrapedInvestorData) : List Investor :=
  let interests := (alGet interestsMap data.name).getD []
  let id := generateId data.name data.source
  let normalizedName := jsLowerTrim data.name
  let existingInvestor :=
    match alGet existingById id with
    | some e => some e
    | none =>
      (existingById.map Prod.snd).find? (fun inv => decide (jsLowerTrim inv.name = normalizedName))
  let profileData := getProfileData data
  match existingInvestor with
  | some e => newInvestors ++ [mergeExistingJob e data interests profileData now]
  | none =>
    match newInvestors.find? (fun inv => decide (jsLowerTrim inv.name = normalizedName)) with
    | some alreadyAdded =>
      replaceFirstById newInvestors alreadyAdded.id
        (batchMergeInvestor alreadyAdded data interests profileData now)
    | none => newInvestors ++ [newInvestorFromData id data interests profileData now]

/-- The candidate-processing loop over the whole batch. -/
def processScrapedBatch (existing : List Investor) (scraped : List ScrapedInvestorData)
    (interestsMap : List (String × List String)) (now : String) : List Investor :=
  scraped.foldl (processOne (buildByIdMap existing) interestsMap now) []

/-- Inline completeness used at lines 336-337 and 383-384 of `scraper-job.ts`;
its body is identical to `calculateInvestorCompleteness`. -/
def inlineCompleteness (inv : Investor) : Nat :=
  calculateInvestorCompleteness inv

/-- The set written to the database (lines 322-349): existing investors keyed by
normalized name, then each new investor either replaces (strictly more
complete), or refreshes `lastUpdated` on, the record under its key. -/
def persistMergeSet (existing newInvestors : List Investor) : List Investor :=
  let m := existing.foldl (fun m inv => alSet m (jsLowerTrim inv.name) inv) []
  let m := newInvestors.foldl
    (fun m investor =>
      let nn := jsLowerTrim investor.name
      match alGet m nn with
      | some ex =>
        if inlineCompleteness investor > inlineCompleteness ex then alSet m nn investor
        else alSet m nn { ex with lastUpdated := investor.lastUpdated }
      | none => alSet m nn investor)
    m
  m.map Prod.snd

/-- The deduplication of the returned batch (lines 375-392): first record per
normalized name wins unless a later one is strictly more complete. -/
def dedupReturnList (newInvestors : List Investor) : List Investor :=
  (newInvestors.foldl
      (fun m investor =>
        let nn := jsLowerTrim investor.name
        match alGet m nn with
        | none => alSet m nn investor
        | some ex =>
          if inlineCompleteness investor > inlineCompleteness ex then alSet m nn investor
          else m)
      []).map Prod.snd

/-- External collaborators of one run of the job; each fallible call is
`Except`-valued (`.error` models a thrown exception). -/
structure JobEnv where
  progress : Except Unit Unit
  fetch : Except Unit (List ScrapedInvestorData)
  extractInterests : Except Unit (List (String × List String))
  persist : List Investor → Except Unit Unit
  cacheRefresh : List Investor → Except Unit Unit

/-- The interests map after the optional AI-extraction pass (lines 150-167);
an extraction failure is caught locally and the original map kept. -/
def finalInterestsMap (scraped : List ScrapedInvestorData) (env : JobEnv) :
    List (String × List String) :=
  let m := buildInterestsMap scraped
  if (scraped.filter (fun d => (getInterestsFromOpenAIResponse d).length = 0)).length > 0 then
    match env.extractInterests with
    | .ok ai => ai.foldl (fun acc p => alSet acc p.1 p.2) m
    | .error _ => m
  else m

/-- The body of the `try` block of the job promise (lines 85-392): fetch
candidates, process the batch, persist, refresh the cache, and return the
deduplicated batch.  Any `.error` from an external call aborts the run. -/
def runJobCore (env : JobEnv) (existing : List Investor) (now : String) :
    Except Unit (List Investor) := do
  let _ ← env.progress
  let scraped ← env.fetch
  if scraped.length = 0 then
    return []
  let interestsMap := finalInterestsMap scraped env
  let newInvestors := processScrapedBatch existing scraped interestsMap now
  let allInvestors := persistMergeSet existing newInvestors
  let _ ← env.persist allInvestors
  let _ ← env.cacheRefresh allInvestors
  return dedupReturnList newInvestors

/-- In-process coordination state of the job
(`isRunning`, `runningQuery`, `runningPromise`); a promise is identified by an
opaque token. -/
structure JobState where
  isRunning : Bool
  runningQuery : Option String
  runningPromise : Option Nat
deriving Repr, DecidableEq

/-- The idle in-process state. -/
def idleJobState : JobState :=
  ⟨false, none, none⟩

/-- Result of the promise body (lines 84-405) including its `catch` and
`finally` blocks: the returned list, the in-process state after `finally`, and
the distributed lock flag after `finally` (`setScrapingLock(false)`). -/
def runScrapingJobPromise (env : JobEnv) (existing : List Investor) (now : String) :
    List Investor × JobState × Bool :=
  match runJobCore env existing now with
  | .ok r => (r, idleJobState, false)
  | .error _ => ([], idleJobState, false)

/-- How a call into `runScrapingJob` leaves its synchronous entry section
(lines 22-84).  `redisLockedPath` summarizes entry into the distributed-lock
branch (stale-lock recovery and polling), which no claim below reaches. -/
inductive AccumOutcome where
  | awaitInFlight : Nat → AccumOutcome
  | redisLockedPath : AccumOutcome
  | rejected : AccumOutcome
  | startedRun : Nat → AccumOutcome
deriving Repr, DecidableEq

/-- JS `query?.toLowerCase().trim() || ""`. -/
def normalizedQueryOf (query : Option String) : String :=
  match query with
  | none => ""
  | some s => jsLowerTrim s

/-- The synchronous entry section of `runScrapingJob`: the same-query
coalescing check runs before the first `await`, so under the single-threaded
event loop it is atomic with respect to other calls. -/
def runScrapingJobEntry (st : JobState) (query : Option String) (redisLocked : Bool)
    (fresh : Nat) : AccumOutcome × JobState :=
  let nq := normalizedQueryOf query
  if st.isRunning ∧ st.runningQuery = some nq ∧ st.runningPromise.isSome then
    (.awaitInFlight (st.runningPromise.getD 0), st)
  else if redisLocked then
    (.redisLockedPath, st)
  else if st.isRunning then
    (.rejected, st)
  else
    (.startedRun fresh, ⟨true, some nq, some fresh⟩)

/-- Generative-source invocations caused by an entry outcome: a started run
calls `scrapeInvestors` exactly once (line 101); a coalesced or rejected caller
calls it zero times.  (The continuation of `redisLockedPath` is outside the
scenarios below.) -/
def adapterCalls (o : AccumOutcome) : Nat :=
  match o with
  | .startedRun _ => 1
  | _ => 0

/-- Sequential processing of a list of entry calls, each with its own query,
observed Redis lock and fresh promise token. -/
def processCalls (st : JobState) (calls : List (Option String × Bool × Nat)) :
    List AccumOutcome × JobState :=
  match calls with
  | [] => ([], st)
  | (q, locked, fresh) :: rest =>
    let r := runScrapingJobEntry st q locked fresh
    let rs := processCalls r.2 rest
    (r.1 :: rs.1, rs.2)

/-! ### The search route (`src/app/api/search/route.ts`) -/

/-- JS `s.includes(pat)`: `pat` occurs as a contiguous substring of `s`. -/
def strIncludes (s pat : String) : Bool :=
  listHasInfix pat.data s.data

/-- JS `a || b` on plain (non-optional) strings. -/
def jsOrPlain (a b : String) : String :=
  if a.isEmpty then b else a

/-- The name contribution to the match score (lines 41-46): 100 for an exact
lower-cased match, else 50 for a substring match in either direction. -/
def nameMatchScore (queryLower nameLower : String) : Nat :=
  if nameLower = queryLower then 100
  else if strIncludes nameLower queryLower || strIncludes queryLower nameLower then 50
  else 0

/-- The keyword contribution (lines 48-56): 5 per keyword in the name, 1 per
keyword in the full text. -/
def keywordScore (keywords : List String) (nameLower fullText : String) : Nat :=
  keywords.foldl
    (fun acc kw =>
      acc + (if strIncludes nameLower kw then 5 else 0) +
        (if strIncludes fullText kw then 1 else 0))
    0

/-- The interest contribution (lines 58-70): 3 per interest overlapping the
query, plus 2 per keyword-interest containment in either direction. -/
def interestScore (queryLower : String) (keywords : List String)
    (interests : List String) : Nat :=
  interests.foldl
    (fun acc interest =>
      let interestLower := jsToLower interest
      acc +
        (if strIncludes queryLower interestLower || strIncludes interestLower queryLower
         then 3 else 0) +
        keywords.foldl
          (fun a kw =>
            a + (if strIncludes interestLower kw || strIncludes kw interestLower then 2 else 0))
          0)
    0

/-- The full match score of one investor. -/
def scoreInvestor (queryLower : String) (keywords : List String) (inv : Investor) : Nat :=
  let nameLower := jsToLower inv.name
  let bioLower := jsToLower (inv.bio.getD "")
  let locationLower := jsToLower (inv.location.getD "")
  let interestsLower := joinSpace (inv.interests.map jsToLower)
  let fullText := nameLower ++ " " ++ bioLower ++ " " ++ locationLower ++ " " ++ interestsLower
  nameMatchScore queryLower nameLower + keywordScore keywords nameLower fullText +
    interestScore queryLower keywords inv.interests

/-- `queryLower.split(/\s+/).filter((w) => w.length > 2)`. -/
def queryKeywords (query : String) : List String :=
  (splitOnWs (jsToLower query).data []).filter (fun w => decide (w.length > 2))

/-- Embedding of `matchInvestorsByKeywords` (route lines 14-78).  The JS
`sort((a, b) => b.score - a.score)` is a stable descending sort, modelled by
`mergeSort`. -/
def matchInvestorsByKeywords (investors : List Investor) (query : String) : List Investor :=
  if investors.length = 0 then []
  else
    let queryLower := jsToLower query
    let keywords := queryKeywords query
    if keywords.length = 0 then
      if query.length > 2 then investors.take 50 else []
    else
      let scored :=
        (investors.map (fun inv => (inv, scoreInvestor queryLower keywords inv))).filter
          (fun p => decide (p.2 > 0))
      (scored.mergeSort (fun a b => decide (b.2 ≤ a.2))).map Prod.fst

/-- Conversion of one OpenAI result into an `Investor` (route lines 242-296):
merge into the persisted record with the same normalized name when one exists,
else build a new record. -/
def convertOpenAIInvestor (existingInvestors : List Investor) (now : String)
    (data : ScrapedInvestorData) : Option Investor :=
  let id := generateInvestorId data.name (jsOrPlain data.source "OpenAI Search")
  let interests := getInterestsFromOpenAIResponse data
  let profileData := getProfileData data
  let normalizedName := normalizeInvestorName data.name
  if normalizedName = "" then none
  else
    match findInvestorByName existingInvestors data.name with
    | some existingInvestor =>
      some (mergeInvestors existingInvestor
        ⟨data.bio, data.fullBio, data.location, none, data.contactInfo⟩
        interests (some profileData) now)
    | none =>
      some
        { id := id
          name := data.name
          bio := data.bio
          fullBio := data.fullBio
          location := data.location
          image := none
          interests := interests
          profile := if profileData.keyCount > 0 then some profileData else none
          contactInfo :=
            { email := data.contactInfo.bind (·.email)
              linkedin := data.contactInfo.bind (·.linkedin)
              twitter := data.contactInfo.bind (·.twitter)
              website := data.contactInfo.bind (·.website)
              other := none }
          source := jsOrPlain data.source "OpenAI Search"
          scrapedAt := now
          lastUpdated := now }

/-- The JSON shape returned by the route (the fields the claims are about). -/
structure SearchResponse where
  investors : List Investor
  total : Nat
  cached : Bool
deriving Repr, DecidableEq

/-- A search outcome together with whether the generative source adapter
(`searchInvestorsWithOpenAI`) was invoked during the request. -/
structure SearchOutcome where
  response : SearchResponse
  adapterInvoked : Bool
deriving Repr, DecidableEq

/-- The final keyword-match fallback of the route (lines 417-441). -/
def keywordFallbackResponse (canonicalCache : Option (List Investor)) (query : String) :
    SearchResponse :=
  match canonicalCache with
  | some allCached =>
    if allCached.length > 0 then
      let matched := matchInvestorsByKeywords allCached query
      if matched.length > 0 then
        let deduplicated := (deduplicateInvestors matched).unique
        ⟨deduplicated.take 50, deduplicated.length, true⟩
      else ⟨[], 0, false⟩
    else ⟨[], 0, false⟩
  | none => ⟨[], 0, false⟩

/-- Embedding of the route's `GET` (lines 177-485).  The OpenAI call, the
persisted set, the per-query cache entry and the canonical-set cache are
explicit inputs; `adapterInvoked` records whether `searchInvestorsWithOpenAI`
was called.  The catch path (an exception from the OpenAI call) serves the
per-query cache without deduplication. -/
def searchGET (query : String) (openAICall : Except Unit (List ScrapedInvestorData))
    (existingInvestors : List Investor) (queryCache : Option (List Investor))
    (canonicalCache : Option (List Investor)) (now : String) : SearchOutcome :=
  if query = "" then ⟨⟨[], 0, false⟩, false⟩
  else
    match openAICall with
    | .error _ =>
      match queryCache with
      | some cached =>
        if cached.length > 0 then ⟨⟨cached.take 50, cached.length, true⟩, true⟩
        else ⟨⟨[], 0, false⟩, true⟩
      | none => ⟨⟨[], 0, false⟩, true⟩
    | .ok openAIInvestors =>
      if openAIInvestors.length > 0 then
        let converted :=
          (openAIInvestors.filter isValidInvestorData).filterMap
            (convertOpenAIInvestor existingInvestors now)
        let finalInvestors := (deduplicateInvestors converted).unique
        ⟨⟨finalInvestors.take 50, finalInvestors.length, false⟩, true⟩
      else
        match queryCache with
        | some cached =>
          if cached.length > 0 then
            let deduplicated := (deduplicateInvestors cached).unique
            ⟨⟨deduplicated.take 50, deduplicated.length, true⟩, true⟩
          else ⟨keywordFallbackResponse canonicalCache query, true⟩
        | none => ⟨keywordFallbackResponse canonicalCache query, true⟩

/-! ### Concrete sample data used by witnesses and counterexamples -/

/-- A contact-info object with no fields. -/
def emptyContact : ContactInfo :=
  ⟨none, none, none, none, none⟩

def sampleAlice : Investor :=
  ⟨"a1", "Alice", some "long bio", none, none, none, ["AI/ML"], emptyContact, none, "X", "t0", "t0"⟩

def sampleAliceDup : Investor :=
  ⟨"a2", " alice ", some "b", none, none, none, [], emptyContact, none, "Y", "t0", "t0"⟩

def sampleNoName : Investor :=
  ⟨"a3", "  ", none, none, none, none, [], emptyContact, none, "X", "t0", "t0"⟩

/-- Scenario B existing record. -/
def scenBexisting : Investor :=
  ⟨"h1", "Bob", some "short", none, none, none, ["SaaS"], emptyContact, none, "X", "t0", "t0"⟩

/-- Scenario B incoming partial record. -/
def scenBnew : NewData :=
  ⟨some "a much longer and more detailed biography", none, none, none, none⟩

/-- An existing in-batch record with a non-empty profile field. -/
def annExisting : Investor :=
  ⟨"a9", "Ann", none, none, none, none, [], emptyContact,
    some { emptyProfile with checkSize := some "$1M - $2M" }, "X", "t0", "t0"⟩

/-- An incoming profile whose `checkSize` key is present but empty. -/
def annIncomingProfile : Profile :=
  { emptyProfile with checkSize := some "", portfolio := some ["X Corp"] }

/-- The scraped record carrying `annIncomingProfile`. -/
def annScraped : ScrapedInvestorData :=
  ⟨"Ann", none, none, none, none, "", "Y", none, none, some annIncomingProfile⟩

/-- An investor with no textual overlap with the queries used below. -/
def zzzInvestor : Investor :=
  ⟨"z1", "zzz", none, none, none, none, [], emptyContact, none, "X", "t0", "t0"⟩

/-- An investor matching the query `"fintech startups"`. -/
def fintechInvestor : Investor :=
  ⟨"f1", "Fin Tech Capital", some "invests in fintech startups", none, none, none,
    ["FinTech"], emptyContact, none, "X", "t0", "t0"⟩

/-- A scraped candidate returned by the generative source. -/
def bobScraped : ScrapedInvestorData :=
  ⟨"Bobby", some "bio", none, none, none, "raw", "OpenAI Search", none, some ["FinTech"], none⟩

/-- A job environment whose candidate fetch throws. -/
def failingFetchEnv : JobEnv :=
  ⟨Except.ok (), Except.error (), Except.ok [], fun _ => Except.ok (), fun _ => Except.ok ()⟩

/-! ### Specification predicates -/

/-- Invariant of the deduplication map: keys are pairwise distinct, and every
key is the non-empty normalized name of its value. -/
def DedupMapOK (m : List (String × Investor)) : Prop :=
  (m.map Prod.fst).Nodup ∧
    ∀ p ∈ m, p.1 = normalizeInvestorName p.2.name ∧ p.1 ≠ ""

/-- The merge rule for an optional scalar (string) field: the merged value is
the existing one, or a truthy incoming one, or both the existing and merged
values carry no data (absent and empty string are identified as "no data"). -/
def fieldRuleStr (e i m : Option String) : Prop :=
  m = e ∨ (jsTruthyStr i = true ∧ m = i) ∨
    (jsTruthyStr e = false ∧ jsTruthyStr m = false)

/-- The merge rule for a bio-like field: the existing value, unless the
incoming one is truthy and strictly longer. -/
def fieldRuleBio (e i m : Option String) : Prop :=
  m = e ∨ (jsTruthyStr i = true ∧ m = i ∧ jsStrLen e < jsStrLen i)

/-- The merge rule for an optional list field: the existing value, or a
non-empty incoming one, or no data on either side. -/
def fieldRuleList (e i m : Option (List String)) : Prop :=
  m = e ∨ (jsListNonempty i = true ∧ m = i) ∨
    (jsListNonempty e = false ∧ jsListNonempty m = false)

/-- The merge rule for every non-profile field of a record merge: identity
fields unchanged, bios replaced only by strictly longer truthy values, scalars
replaced only by truthy values, existing interests preserved, and the existing
`other` contact list preserved. -/
def CoreFieldsPreserved (E : Investor) (newBio newFullBio newLocation newImage : Option String)
    (newContact : Option SContactInfo) (M : Investor) : Prop :=
  M.id = E.id ∧ M.name = E.name ∧ M.source = E.source ∧ M.scrapedAt = E.scrapedAt ∧
    fieldRuleBio E.bio newBio M.bio ∧ fieldRuleBio E.fullBio newFullBio M.fullBio ∧
    fieldRuleStr E.location newLocation M.location ∧ fieldRuleStr E.image newImage M.image ∧
    (∀ x ∈ E.interests, x ∈ M.interests) ∧
    fieldRuleStr E.contactInfo.email (newContact.bind (·.email)) M.contactInfo.email ∧
    fieldRuleStr E.contactInfo.linkedin (newContact.bind (·.linkedin)) M.contactInfo.linkedin ∧
    fieldRuleStr E.contactInfo.twitter (newContact.bind (·.twitter)) M.contactInfo.twitter ∧
    fieldRuleStr E.contactInfo.website (newContact.bind (·.website)) M.contactInfo.website ∧
    M.contactInfo.other.getD [] = E.contactInfo.other.getD []

/-- The field-wise merge rule over all 13 profile fields. -/
def profileFieldsRule (e i m : Option Profile) : Prop :=
  fieldRuleList (e.bind (·.investmentStage)) (i.bind (·.investmentStage))
      (m.bind (·.investmentStage)) ∧
    fieldRuleStr (e.bind (·.checkSize)) (i.bind (·.checkSize)) (m.bind (·.checkSize)) ∧
    fieldRuleList (e.bind (·.geographicFocus)) (i.bind (·.geographicFocus))
      (m.bind (·.geographicFocus)) ∧
    fieldRuleList (e.bind (·.portfolio)) (i.bind (·.portfolio)) (m.bind (·.portfolio)) ∧
    fieldRuleStr (e.bind (·.investmentPhilosophy)) (i.bind (·.investmentPhilosophy))
      (m.bind (·.investmentPhilosophy)) ∧
    fieldRuleStr (e.bind (·.fundingSource)) (i.bind (·.fundingSource))
      (m.bind (·.fundingSource)) ∧
    fieldRuleStr (e.bind (·.exitExpectations)) (i.bind (·.exitExpectations))
      (m.bind (·.exitExpectations)) ∧
    fieldRuleStr (e.bind (·.decisionProcess)) (i.bind (·.decisionProcess))
      (m.bind (·.decisionProcess)) ∧
    fieldRuleStr (e.bind (·.decisionSpeed)) (i.bind (·.decisionSpeed))
      (m.bind (·.decisionSpeed)) ∧
    fieldRuleStr (e.bind (·.reputation)) (i.bind (·.reputation)) (m.bind (·.reputation)) ∧
    fieldRuleStr (e.bind (·.network)) (i.bind (·.network)) (m.bind (·.network)) ∧
    fieldRuleStr (e.bind (·.tractionRequired)) (i.bind (·.tractionRequired))
      (m.bind (·.tractionRequired)) ∧
    fieldRuleStr (e.bind (·.boardParticipation)) (i.bind (·.boardParticipation))
      (m.bind (·.boardParticipation))

end InvestorApp

/-! ## Theorems -/

namespace InvestorApp

/-! ### Truthiness helpers -/

theorem jsStrLen_eq_zero_of_not_truthy {o : Option String} (h : jsTruthyStr o = false) :
    jsStrLen o = 0 := by
  cases o with
  | none => rfl
  | some s =>
    have h' : s.isEmpty = true := by simpa [jsTruthyStr] using h
    have : s = "" := (String.isEmpty_iff s).mp h'
    simp [jsStrLen, this]

theorem jsStrLen_pos_of_truthy {o : Option String} (h : jsTruthyStr o = true) :
    0 < jsStrLen o := by
  cases o with
  | none => simp [jsTruthyStr] at h
  | some s =>
    have h' : s.isEmpty = false := by simpa [jsTruthyStr] using h
    have hne : s ≠ "" := fun hs => by
      rw [hs] at h'
      exact absurd h' (by decide)
    cases s with
    | mk cs =>
      cases cs with
      | nil => exact absurd rfl hne
      | cons c t => simp [jsStrLen]

theorem fieldRuleStr_jsOr (e i : Option String) : fieldRuleStr e i (jsOrStr i e) := by
  unfold fieldRuleStr jsOrStr
  by_cases h : jsTruthyStr i = true
  · exact Or.inr (Or.inl ⟨h, by simp [h]⟩)
  · simp only [Bool.not_eq_true] at h
    exact Or.inl (by simp [h])

theorem fieldRuleStr_none (i : Option String) : fieldRuleStr none i i := by
  unfold fieldRuleStr
  by_cases h : jsTruthyStr i = true
  · exact Or.inr (Or.inl ⟨h, rfl⟩)
  · exact Or.inr (Or.inr ⟨rfl, by simpa using h⟩)

theorem fieldRuleBio_merge (e i : Option String) : fieldRuleBio e i (mergeBioField i e) := by
  unfold fieldRuleBio mergeBioField
  by_cases hi : jsTruthyStr i = true
  · by_cases he : jsTruthyStr e = true
    · by_cases hlen : jsStrLen e < jsStrLen i
      · refine Or.inr ⟨hi, ?_, hlen⟩
        simp [hi, he, hlen]
      · exact Or.inl (by simp [hi, he, hlen])
    · simp only [Bool.not_eq_true] at he
      refine Or.inr ⟨hi, ?_, ?_⟩
      · simp [hi, he]
      · calc jsStrLen e = 0 := jsStrLen_eq_zero_of_not_truthy he
          _ < jsStrLen i := jsStrLen_pos_of_truthy hi
  · simp only [Bool.not_eq_true] at hi
    exact Or.inl (by simp [hi])

theorem fieldRuleList_prefer (e i : Option (List String)) :
    fieldRuleList e i (preferNonemptyList i e) := by
  unfold fieldRuleList preferNonemptyList
  by_cases h : jsListNonempty i = true
  · exact Or.inr (Or.inl ⟨h, by simp [h]⟩)
  · simp only [Bool.not_eq_true] at h
    exact Or.inl (by simp [h])

theorem fieldRuleList_none (i : Option (List String)) : fieldRuleList none i i := by
  unfold fieldRuleList
  by_cases h : jsListNonempty i = true
  · exact Or.inr (Or.inl ⟨h, rfl⟩)
  · exact Or.inr (Or.inr ⟨rfl, by simpa using h⟩)

/-! ### Association-list lemmas -/

theorem alGet_eq_none_iff {α : Type} (m : List (String × α)) (k : String) :
    alGet m k = none ↔ k ∉ m.map Prod.fst := by
  induction m with
  | nil => simp [alGet]
  | cons p rest ih =>
    obtain ⟨k', v⟩ := p
    by_cases h : k' = k
    · simp [alGet, h]
    · simp [alGet, h, ih, eq_comm, Ne.symm h]

theorem alSet_of_get_none {α : Type} {m : List (String × α)} {k : String} (v : α)
    (h : alGet m k = none) : alSet m k v = m ++ [(k, v)] := by
  induction m with
  | nil => rfl
  | cons p rest ih =>
    obtain ⟨k', w⟩ := p
    by_cases hk : k' = k
    · simp [alGet, hk] at h
    · simp only [alGet, if_neg hk] at h
      simp [alSet, hk, ih h]

theorem keys_alSet_of_some {α : Type} {m : List (String × α)} {k : String} {w : α} (v : α)
    (h : alGet m k = some w) : (alSet m k v).map Prod.fst = m.map Prod.fst := by
  induction m with
  | nil => simp [alGet] at h
  | cons p rest ih =>
    obtain ⟨k', w'⟩ := p
    by_cases hk : k' = k
    · simp [alSet, hk]
    · simp only [alGet, if_neg hk] at h
      simp [alSet, hk, ih h]

theorem length_alSet_of_some {α : Type} {m : List (String × α)} {k : String} {w : α} (v : α)
    (h : alGet m k = some w) : (alSet m k v).length = m.length := by
  have := congrArg List.length (keys_alSet_of_some v h)
  simpa using this

theorem mem_alSet {α : Type} {m : List (String × α)} {k : String} {v p : _}
    (h : p ∈ alSet m k v) : p = (k, v) ∨ p ∈ m := by
  induction m with
  | nil => simpa [alSet] using h
  | cons q rest ih =>
    obtain ⟨k', w⟩ := q
    by_cases hk : k' = k
    · simp only [alSet, if_pos hk, List.mem_cons] at h
      rcases h with h | h
      · exact Or.inl h
      · exact Or.inr (List.mem_cons_of_mem _ h)
    · simp only [alSet, if_neg hk, List.mem_cons] at h
      rcases h with h | h
      · exact Or.inr (by simp [h])
      · rcases ih h with h' | h'
        · exact Or.inl h'
        · exact Or.inr (List.mem_cons_of_mem _ h')

theorem alGet_append {α : Type} (m m₂ : List (String × α)) (k : String) :
    alGet (m ++ m₂) k =
      match alGet m k with
      | some v => some v
      | none => alGet m₂ k := by
  induction m with
  | nil => simp [alGet]
  | cons p rest ih =>
    obtain ⟨k', v⟩ := p
    by_cases hk : k' = k
    · simp [alGet, hk]
    · simp [alGet, hk, ih]

/-! ### JS `Set` dedup lemmas -/

theorem mem_jsSetDedupAux (l : List String) (seen : List String) (x : String) :
    x ∈ jsSetDedupAux seen l ↔ x ∈ l ∧ x ∉ seen := by
  induction l generalizing seen with
  | nil => simp [jsSetDedupAux]
  | cons a rest ih =>
    by_cases ha : a ∈ seen
    · rw [jsSetDedupAux, if_pos ha, ih]
      constructor
      · rintro ⟨hx, hs⟩
        exact ⟨List.mem_cons_of_mem _ hx, hs⟩
      · rintro ⟨hx, hs⟩
        rcases List.mem_cons.mp hx with rfl | hx
        · exact absurd ha hs
        · exact ⟨hx, hs⟩
    · rw [jsSetDedupAux, if_neg ha]
      simp only [List.mem_cons, ih, List.mem_cons]
      constructor
      · rintro (rfl | ⟨hx, hs⟩)
        · exact ⟨Or.inl rfl, ha⟩
        · exact ⟨Or.inr hx, fun hxs => hs (Or.inr hxs)⟩
      · rintro ⟨rfl | hx, hs⟩
        · exact Or.inl rfl
        · by_cases hxa : x = a
          · exact Or.inl hxa
          · exact Or.inr ⟨hx, fun hmem => by
              rcases hmem with h' | h'
              · exact hxa h'
              · exact hs h'⟩

theorem nodup_jsSetDedupAux (l : List String) (seen : List String) :
    (jsSetDedupAux seen l).Nodup := by
  induction l generalizing seen with
  | nil => simp [jsSetDedupAux]
  | cons a rest ih =>
    by_cases ha : a ∈ seen
    · rw [jsSetDedupAux, if_pos ha]
      exact ih seen
    · rw [jsSetDedupAux, if_neg ha]
      refine List.nodup_cons.mpr ⟨?_, ih (a :: seen)⟩
      intro hmem
      exact ((mem_jsSetDedupAux rest (a :: seen) a).mp hmem).2 (List.mem_cons_self a seen)

theorem mem_jsSetDedup (l : List String) (x : String) : x ∈ jsSetDedup l ↔ x ∈ l := by
  rw [jsSetDedup, mem_jsSetDedupAux]
  simp

theorem nodup_jsSetDedup (l : List String) : (jsSetDedup l).Nodup :=
  nodup_jsSetDedupAux l []

theorem mergeInterests_mem (e n : List String) (x : String) :
    x ∈ mergeInterests e n ↔ x ∈ e ∨ x ∈ n := by
  unfold mergeInterests
  by_cases h : n.length = 0
  · have : n = [] := List.length_eq_zero.mp h
    simp [h, this]
  · rw [if_neg h, mem_jsSetDedup, List.mem_append]

theorem mergeInterests_nodup (e n : List String) (he : e.Nodup) :
    (mergeInterests e n).Nodup := by
  unfold mergeInterests
  by_cases h : n.length = 0
  · simpa [h] using he
  · rw [if_neg h]
    exact nodup_jsSetDedup _

/-! ### Deduplication-loop lemmas -/

theorem dedupMapOK_alSet {m : List (String × Investor)} {nn : String} {a : Investor}
    (h : DedupMapOK m) (hk : nn = normalizeInvestorName a.name) (hne : nn ≠ "") :
    DedupMapOK (alSet m nn a) := by
  cases halGet : alGet m nn with
  | none =>
    rw [alSet_of_get_none a halGet]
    constructor
    · rw [List.map_append, List.nodup_append]
      refine ⟨h.1, by simp, ?_⟩
      intro x hx hx2
      simp only [List.map_cons, List.map_nil, List.mem_singleton] at hx2
      exact (alGet_eq_none_iff m nn).mp halGet (hx2 ▸ hx)
    · intro p hp
      rcases List.mem_append.mp hp with hp | hp
      · exact h.2 p hp
      · simp only [List.mem_singleton] at hp
        subst hp
        exact ⟨hk, hne⟩
  | some w =>
    constructor
    · rw [keys_alSet_of_some a halGet]
      exact h.1
    · intro p hp
      rcases mem_alSet hp with rfl | hp
      · exact ⟨hk, hne⟩
      · exact h.2 p hp

theorem dedupLoop_mapOK (l : List Investor) :
    ∀ (m : List (String × Investor)) (d i : Nat),
      DedupMapOK m → DedupMapOK (dedupLoop l m d i).1 := by
  induction l with
  | nil =>
    intro m d i h
    simpa [dedupLoop] using h
  | cons a rest ih =>
    intro m d i h
    rw [dedupLoop]
    by_cases hn : normalizeInvestorName a.name = ""
    · rw [if_pos hn]
      exact ih m d (i + 1) h
    · rw [if_neg hn]
      cases halGet : alGet m (normalizeInvestorName a.name) with
      | none =>
        exact ih _ d i (dedupMapOK_alSet h rfl hn)
      | some e =>
        dsimp only
        by_cases hc :
            calculateInvestorCompleteness a > calculateInvestorCompleteness e
        · rw [if_pos hc]
          exact ih _ (d + 1) i (dedupMapOK_alSet h rfl hn)
        · rw [if_neg hc]
          exact ih m (d + 1) i h

theorem dedupLoop_counts (l : List Investor) :
    ∀ (m : List (String × Investor)) (d i : Nat),
      (dedupLoop l m d i).1.length + (dedupLoop l m d i).2.1 + (dedupLoop l m d i).2.2 =
        m.length + d + i + l.length := by
  induction l with
  | nil =>
    intro m d i
    simp [dedupLoop]
  | cons a rest ih =>
    intro m d i
    rw [dedupLoop]
    by_cases hn : normalizeInvestorName a.name = ""
    · rw [if_pos hn, ih]
      simp only [List.length_cons]
      omega
    · rw [if_neg hn]
      cases halGet : alGet m (normalizeInvestorName a.name) with
      | none =>
        dsimp only
        rw [ih, alSet_of_get_none a halGet]
        simp only [List.length_append, List.length_singleton, List.length_cons,
          List.length_nil]
        omega
      | some e =>
        dsimp only
        by_cases hc :
            calculateInvestorCompleteness a > calculateInvestorCompleteness e
        · rw [if_pos hc, ih, length_alSet_of_some a halGet]
          simp only [List.length_cons]
          omega
        · rw [if_neg hc, ih]
          simp only [List.length_cons]
          omega

theorem snd_mem_alSet {m : List (String × Investor)} {k : String} {w v : Investor}
    (h : v ∈ (alSet m k w).map Prod.snd) : v = w ∨ v ∈ m.map Prod.snd := by
  rcases List.mem_map.mp h with ⟨p, hp, rfl⟩
  rcases mem_alSet hp with rfl | hp
  · exact Or.inl rfl
  · exact Or.inr (List.mem_map_of_mem _ hp)

theorem dedupLoop_mem (l : List Investor) :
    ∀ (m : List (String × Investor)) (d i : Nat) (v : Investor),
      v ∈ (dedupLoop l m d i).1.map Prod.snd → v ∈ m.map Prod.snd ∨ v ∈ l := by
  induction l with
  | nil =>
    intro m d i v hv
    exact Or.inl (by simpa [dedupLoop] using hv)
  | cons a rest ih =>
    intro m d i v hv
    rw [dedupLoop] at hv
    by_cases hn : normalizeInvestorName a.name = ""
    · rw [if_pos hn] at hv
      rcases ih m d (i + 1) v hv with h | h
      · exact Or.inl h
      · exact Or.inr (List.mem_cons_of_mem _ h)
    · rw [if_neg hn] at hv
      cases halGet : alGet m (normalizeInvestorName a.name) with
      | none =>
        rw [halGet] at hv
        have hv' : v ∈ List.map Prod.snd
            (dedupLoop rest (alSet m (normalizeInvestorName a.name) a) d i).1 := hv
        rcases ih _ d i v hv' with h | h
        · rcases snd_mem_alSet h with rfl | h'
          · exact Or.inr (List.mem_cons_self _ _)
          · exact Or.inl h'
        · exact Or.inr (List.mem_cons_of_mem _ h)
      | some e =>
        rw [halGet] at hv
        have hv' : v ∈ List.map Prod.snd
            ((if calculateInvestorCompleteness a > calculateInvestorCompleteness e then
                dedupLoop rest (alSet m (normalizeInvestorName a.name) a) (d + 1) i
              else dedupLoop rest m (d + 1) i)).1 := hv
        by_cases hc :
            calculateInvestorCompleteness a > calculateInvestorCompleteness e
        · rw [if_pos hc] at hv'
          rcases ih _ (d + 1) i v hv' with h | h
          · rcases snd_mem_alSet h with rfl | h'
            · exact Or.inr (List.mem_cons_self _ _)
            · exact Or.inl h'
          · exact Or.inr (List.mem_cons_of_mem _ h)
        · rw [if_neg hc] at hv'
          rcases ih m (d + 1) i v hv' with h | h
          · exact Or.inl h
          · exact Or.inr (List.mem_cons_of_mem _ h)

theorem dedupLoop_invalidCount (l : List Investor) :
    ∀ (m : List (String × Investor)) (d i : Nat),
      (dedupLoop l m d i).2.2 =
        i + l.countP (fun v => decide (normalizeInvestorName v.name = "")) := by
  induction l with
  | nil =>
    intro m d i
    simp [dedupLoop]
  | cons a rest ih =>
    intro m d i
    rw [dedupLoop]
    rw [List.countP_cons]
    by_cases hn : normalizeInvestorName a.name = ""
    · rw [if_pos hn, ih]
      simp [hn]
      omega
    · rw [if_neg hn]
      cases halGet : alGet m (normalizeInvestorName a.name) with
      | none =>
        dsimp only
        rw [ih]
        simp [hn]
      | some e =>
        dsimp only
        by_cases hc :
            calculateInvestorCompleteness a > calculateInvestorCompleteness e
        · rw [if_pos hc, ih]
          simp [hn]
        · rw [if_neg hc, ih]
          simp [hn]

theorem dedupLoop_fresh (l : List Investor) :
    ∀ (m : List (String × Investor)) (d i : Nat),
      (∀ v ∈ l, normalizeInvestorName v.name ≠ "") →
      (l.map fun v => normalizeInvestorName v.name).Nodup →
      (∀ v ∈ l, alGet m (normalizeInvestorName v.name) = none) →
      dedupLoop l m d i = (m ++ l.map fun v => (normalizeInvestorName v.name, v), d, i) := by
  induction l with
  | nil =>
    intro m d i _ _ _
    simp [dedupLoop]
  | cons a rest ih =>
    intro m d i hvalid hnodup hdisj
    have hmem := List.mem_cons_self a rest
    rw [dedupLoop, if_neg (hvalid a hmem), hdisj a hmem,
      alSet_of_get_none a (hdisj a hmem)]
    have hnodup' : (rest.map fun v => normalizeInvestorName v.name).Nodup :=
      (List.nodup_cons.mp (by simpa using hnodup)).2
    have hhead : normalizeInvestorName a.name ∉ rest.map fun v => normalizeInvestorName v.name :=
      (List.nodup_cons.mp (by simpa using hnodup)).1
    have hdisj' : ∀ v ∈ rest,
        alGet (m ++ [(normalizeInvestorName a.name, a)]) (normalizeInvestorName v.name) = none := by
      intro v hv
      rw [alGet_append, hdisj v (List.mem_cons_of_mem _ hv)]
      have hne : normalizeInvestorName a.name ≠ normalizeInvestorName v.name := by
        intro heq
        exact hhead (heq ▸ List.mem_map_of_mem _ hv)
      simp [alGet, hne]
    rw [ih _ d i (fun v hv => hvalid v (List.mem_cons_of_mem _ hv)) hnodup' hdisj']
    simp [List.append_assoc]

theorem deduplicateInvestors_eq (X : List Investor) :
    deduplicateInvestors X =
      ⟨(dedupLoop X [] 0 0).1.map Prod.snd, (dedupLoop X [] 0 0).2.1,
        (dedupLoop X [] 0 0).2.2⟩ := rfl

theorem dedupMapOK_of (X : List Investor) : DedupMapOK (dedupLoop X [] 0 0).1 :=
  dedupLoop_mapOK X [] 0 0 ⟨List.nodup_nil, fun p hp => absurd hp (List.not_mem_nil p)⟩

theorem dedup_unique_valid (X : List Investor) :
    ∀ v ∈ (deduplicateInvestors X).unique, normalizeInvestorName v.name ≠ "" := by
  intro v hv
  have hv' : v ∈ (dedupLoop X [] 0 0).1.map Prod.snd := hv
  rcases List.mem_map.mp hv' with ⟨p, hp, rfl⟩
  have h := (dedupMapOK_of X).2 p hp
  rw [← h.1]
  exact h.2

/-! ### Claim theorems: deduplication (C3, C6, C10) -/

/-- C3: deduplication is idempotent — re-running `deduplicateInvestors` on its
own `unique` output returns that output unchanged, with zero duplicates removed
and zero invalid records removed. -/
theorem claim_C3 (X : List Investor) :
    deduplicateInvestors (deduplicateInvestors X).unique =
      ⟨(deduplicateInvestors X).unique, 0, 0⟩ := by
  have hOK : DedupMapOK (dedupLoop X [] 0 0).1 := dedupMapOK_of X
  have hvalid : ∀ v ∈ (dedupLoop X [] 0 0).1.map Prod.snd,
      normalizeInvestorName v.name ≠ "" := dedup_unique_valid X
  have hkeys :
      ((dedupLoop X [] 0 0).1.map Prod.snd).map (fun v => normalizeInvestorName v.name) =
        (dedupLoop X [] 0 0).1.map Prod.fst := by
    rw [List.map_map]
    exact List.map_congr_left (fun p hp => ((hOK.2 p hp).1).symm)
  have hnodup : (((dedupLoop X [] 0 0).1.map Prod.snd).map
      (fun v => normalizeInvestorName v.name)).Nodup := by
    rw [hkeys]
    exact hOK.1
  have hfresh := dedupLoop_fresh ((dedupLoop X [] 0 0).1.map Prod.snd) [] 0 0 hvalid hnodup
    (fun v _ => rfl)
  show deduplicateInvestors ((dedupLoop X [] 0 0).1.map Prod.snd) =
    ⟨(dedupLoop X [] 0 0).1.map Prod.snd, 0, 0⟩
  rw [deduplicateInvestors_eq, hfresh]
  simp [List.map_map, Function.comp]

/-- C10: every record returned by `deduplicateInvestors` is an unmodified
element of the input, and the counts are conserved:
`unique.length + duplicatesRemoved + invalidRemoved = input.length`. -/
theorem claim_C10 (X : List Investor) :
    (∀ v ∈ (deduplicateInvestors X).unique, v ∈ X) ∧
      (deduplicateInvestors X).unique.length + (deduplicateInvestors X).duplicatesRemoved +
        (deduplicateInvestors X).invalidRemoved = X.length := by
  constructor
  · intro v hv
    have hv' : v ∈ (dedupLoop X [] 0 0).1.map Prod.snd := hv
    rcases dedupLoop_mem X [] 0 0 v hv' with h | h
    · simp at h
    · exact h
  · have h := dedupLoop_counts X [] 0 0
    have h2 : (deduplicateInvestors X).unique.length = (dedupLoop X [] 0 0).1.length := by
      show ((dedupLoop X [] 0 0).1.map Prod.snd).length = _
      rw [List.length_map]
    rw [h2]
    show (dedupLoop X [] 0 0).1.length + (dedupLoop X [] 0 0).2.1 +
      (dedupLoop X [] 0 0).2.2 = X.length
    simpa using h

/-- Witness for C10 at a concrete input with one duplicate and one invalid
record. -/
theorem claim_C10_witness :
    sampleAlice ∈ [sampleAlice, sampleAliceDup, sampleNoName] ∧
      (deduplicateInvestors [sampleAlice, sampleAliceDup, sampleNoName]).unique.length +
        (deduplicateInvestors [sampleAlice, sampleAliceDup, sampleNoName]).duplicatesRemoved +
        (deduplicateInvestors [sampleAlice, sampleAliceDup, sampleNoName]).invalidRemoved = 3 :=
  ⟨(claim_C10 [sampleAlice, sampleAliceDup, sampleNoName]).1 sampleAlice (by decide),
    (claim_C10 [sampleAlice, sampleAliceDup, sampleNoName]).2⟩

/-- C6: `deduplicateInvestors` counts exactly the records whose name is empty
after normalization in `invalidRemoved` (missing and non-string names are
modelled as `""`) and drops them (every kept record has a non-empty normalized
name); and on a collision of two records with the same normalized name, the
incoming record replaces the kept one if and only if its completeness score —
bio length plus extended-bio length plus profile-field count — is strictly
greater. -/
theorem claim_C6 :
    (∀ X : List Investor,
        (deduplicateInvestors X).invalidRemoved =
            X.countP (fun v => decide (normalizeInvestorName v.name = "")) ∧
          ∀ v ∈ (deduplicateInvestors X).unique, normalizeInvestorName v.name ≠ "") ∧
      ∀ a b : Investor,
        normalizeInvestorName a.name = normalizeInvestorName b.name →
        normalizeInvestorName a.name ≠ "" →
        deduplicateInvestors [a, b] =
          ⟨[if calculateInvestorCompleteness b > calculateInvestorCompleteness a then b else a],
            1, 0⟩ := by
  constructor
  · intro X
    constructor
    · show (dedupLoop X [] 0 0).2.2 = _
      simpa using dedupLoop_invalidCount X [] 0 0
    · exact dedup_unique_valid X
  · intro a b hab hne
    have hnb : normalizeInvestorName b.name ≠ "" := hab ▸ hne
    rw [deduplicateInvestors_eq]
    rw [dedupLoop, if_neg hne]
    show (let r := dedupLoop [b] (alSet [] (normalizeInvestorName a.name) a) 0 0
          (⟨r.1.map Prod.snd, r.2.1, r.2.2⟩ : DedupResult)) = _
    rw [dedupLoop, if_neg hnb]
    have hget :
        alGet (alSet [] (normalizeInvestorName a.name) a) (normalizeInvestorName b.name) =
          some a := by
      simp [alSet, alGet, hab]
    rw [hget]
    by_cases hc : calculateInvestorCompleteness b > calculateInvestorCompleteness a
    · rw [if_pos hc]
      have hset :
          alSet (alSet [] (normalizeInvestorName a.name) a) (normalizeInvestorName b.name) b =
            [(normalizeInvestorName b.name, b)] := by
        simp [alSet, hab]
      rw [hset]
      simp [dedupLoop, hc]
    · rw [if_neg hc]
      simp [dedupLoop, alSet, hc]

/-- Witness for C6: a concrete collision where the incoming record is strictly
more complete and replaces the kept one, plus a concrete invalid record. -/
theorem claim_C6_witness :
    normalizeInvestorName sampleAliceDup.name = normalizeInvestorName sampleAlice.name ∧
      normalizeInvestorName sampleAliceDup.name ≠ "" ∧
      deduplicateInvestors [sampleAliceDup, sampleAlice] = ⟨[sampleAlice], 1, 0⟩ ∧
      (deduplicateInvestors [sampleNoName]).invalidRemoved = 1 := by
  refine ⟨by decide, by decide, ?_, ?_⟩
  · have h := claim_C6.2 sampleAliceDup sampleAlice (by decide) (by decide)
    rw [h]
    decide
  · have h := (claim_C6.1 [sampleNoName]).1
    rw [h]
    decide

/-! ### Claim theorems: merging (C2, C7) -/

theorem mergeProfile_rule (e pd : Option Profile) :
    profileFieldsRule e pd (mergeProfile e pd) := by
  have hid : ∀ e' : Option Profile, profileFieldsRule e' pd e' :=
    fun e' => ⟨Or.inl rfl, Or.inl rfl, Or.inl rfl, Or.inl rfl, Or.inl rfl, Or.inl rfl,
      Or.inl rfl, Or.inl rfl, Or.inl rfl, Or.inl rfl, Or.inl rfl, Or.inl rfl, Or.inl rfl⟩
  cases pd with
  | none =>
    cases e with
    | none => exact hid none
    | some ex => exact hid (some ex)
  | some np =>
    by_cases h0 : np.keyCount = 0
    · cases e with
      | none =>
        have hm : mergeProfile none (some np) = none := by
          simp only [mergeProfile]
          rw [if_pos h0]
        rw [hm]
        exact hid none
      | some ex =>
        have hm : mergeProfile (some ex) (some np) = some ex := by
          simp only [mergeProfile]
          rw [if_pos h0]
        rw [hm]
        exact hid (some ex)
    · cases e with
      | none =>
        have hm : mergeProfile none (some np) = some np := by
          simp only [mergeProfile]
          rw [if_neg h0]
        rw [hm]
        exact ⟨fieldRuleList_none _, fieldRuleStr_none _, fieldRuleList_none _,
          fieldRuleList_none _, fieldRuleStr_none _, fieldRuleStr_none _, fieldRuleStr_none _,
          fieldRuleStr_none _, fieldRuleStr_none _, fieldRuleStr_none _, fieldRuleStr_none _,
          fieldRuleStr_none _, fieldRuleStr_none _⟩
      | some ex =>
        have hm : mergeProfile (some ex) (some np) =
            some
              { investmentStage := preferNonemptyList np.investmentStage ex.investmentStage
                checkSize := jsOrStr np.checkSize ex.checkSize
                geographicFocus := preferNonemptyList np.geographicFocus ex.geographicFocus
                portfolio := preferNonemptyList np.portfolio ex.portfolio
                investmentPhilosophy :=
                  jsOrStr np.investmentPhilosophy ex.investmentPhilosophy
                fundingSource := jsOrStr np.fundingSource ex.fundingSource
                exitExpectations := jsOrStr np.exitExpectations ex.exitExpectations
                decisionProcess := jsOrStr np.decisionProcess ex.decisionProcess
                decisionSpeed := jsOrStr np.decisionSpeed ex.decisionSpeed
                reputation := jsOrStr np.reputation ex.reputation
                network := jsOrStr np.network ex.network
                tractionRequired := jsOrStr np.tractionRequired ex.tractionRequired
                boardParticipation := jsOrStr np.boardParticipation ex.boardParticipation } := by
          simp only [mergeProfile]
          rw [if_neg h0]
        rw [hm]
        exact ⟨fieldRuleList_prefer _ _, fieldRuleStr_jsOr _ _, fieldRuleList_prefer _ _,
          fieldRuleList_prefer _ _, fieldRuleStr_jsOr _ _, fieldRuleStr_jsOr _ _,
          fieldRuleStr_jsOr _ _, fieldRuleStr_jsOr _ _, fieldRuleStr_jsOr _ _,
          fieldRuleStr_jsOr _ _, fieldRuleStr_jsOr _ _, fieldRuleStr_jsOr _ _,
          fieldRuleStr_jsOr _ _⟩

theorem coreFields_mergeInvestors (E : Investor) (I : NewData) (ints : List String)
    (pd : Option Profile) (now : String) :
    CoreFieldsPreserved E I.bio I.fullBio I.location I.image I.contactInfo
      (mergeInvestors E I ints pd now) := by
  refine ⟨rfl, rfl, rfl, rfl, fieldRuleBio_merge _ _, fieldRuleBio_merge _ _,
    fieldRuleStr_jsOr _ _, fieldRuleStr_jsOr _ _, ?_, fieldRuleStr_jsOr _ _,
    fieldRuleStr_jsOr _ _, fieldRuleStr_jsOr _ _, fieldRuleStr_jsOr _ _, rfl⟩
  intro x hx
  exact (mergeInterests_mem E.interests ints x).mpr (Or.inl hx)

theorem coreFields_batchMerge (A : Investor) (data : ScrapedInvestorData)
    (ints : List String) (pd : Profile) (now : String) :
    CoreFieldsPreserved A data.bio data.fullBio data.location data.image data.contactInfo
      (batchMergeInvestor A data ints pd now) := by
  refine ⟨rfl, rfl, rfl, rfl, fieldRuleBio_merge _ _, fieldRuleBio_merge _ _,
    fieldRuleStr_jsOr _ _, fieldRuleStr_jsOr _ _, ?_, fieldRuleStr_jsOr _ _,
    fieldRuleStr_jsOr _ _, fieldRuleStr_jsOr _ _, fieldRuleStr_jsOr _ _, rfl⟩
  intro x hx
  exact (mergeInterests_mem A.interests ints x).mpr (Or.inl hx)

/-- C2 (amended): merging a partial record into an existing record never
discards non-empty data for `mergeInvestors` (all fields, including the
field-wise profile merge) and for the non-profile fields of the in-batch merge
`batchMergeInvestor`; the in-batch profile merge is a blind spread and is
excluded (see the counterexample). -/
theorem claim_C2 (E : Investor) (I : NewData) (ints : List String) (pd : Option Profile)
    (A : Investor) (data : ScrapedInvestorData) (bints : List String) (bpd : Profile)
    (now : String) :
    (CoreFieldsPreserved E I.bio I.fullBio I.location I.image I.contactInfo
        (mergeInvestors E I ints pd now) ∧
      profileFieldsRule E.profile pd (mergeInvestors E I ints pd now).profile) ∧
      CoreFieldsPreserved A data.bio data.fullBio data.location data.image data.contactInfo
        (batchMergeInvestor A data bints bpd now) :=
  ⟨⟨coreFields_mergeInvestors E I ints pd now, mergeProfile_rule E.profile pd⟩,
    coreFields_batchMerge A data bints bpd now⟩

/-- Counterexample for C2 as stated: in the in-batch merge, an incoming profile
whose `checkSize` key is present but empty overwrites the existing non-empty
`checkSize` — non-empty data is discarded in favor of empty data, violating the
per-field rule. -/
theorem claim_C2_counterexample :
    jsTruthyStr (annExisting.profile.bind (fun p => p.checkSize)) = true ∧
      jsTruthyStr annIncomingProfile.checkSize = false ∧
      (batchMergeInvestor annExisting annScraped [] annIncomingProfile "t1").profile.bind
          (fun p => p.checkSize) = some "" ∧
      ¬fieldRuleStr (annExisting.profile.bind (fun p => p.checkSize))
          annIncomingProfile.checkSize
          ((batchMergeInvestor annExisting annScraped [] annIncomingProfile "t1").profile.bind
            (fun p => p.checkSize)) := by
  refine ⟨by decide, by decide, by decide, ?_⟩
  unfold fieldRuleStr
  decide

/-- Witness for C2: the merged Scenario-B record keeps the existing interest
tag and the existing id. -/
theorem claim_C2_witness :
    "SaaS" ∈ (mergeInvestors scenBexisting scenBnew ["FinTech"] none "t1").interests ∧
      (mergeInvestors scenBexisting scenBnew ["FinTech"] none "t1").id = scenBexisting.id := by
  have h := (claim_C2 scenBexisting scenBnew ["FinTech"] none annExisting annScraped []
    annIncomingProfile "t1").1.1
  unfold CoreFieldsPreserved at h
  obtain ⟨hid, -, -, -, -, -, -, -, hints, -⟩ := h
  exact ⟨hints "SaaS" (by decide), hid⟩

/-- C7: `mergeInvestors` replaces the bio only when the incoming bio is truthy
and strictly longer than the existing one (absent and empty both count as
length 0); when the existing interest list is duplicate-free, the merged
interests are exactly the duplicate-free union of both lists (so interests
never shrink); the id is unchanged; and Scenario B evaluates as the spec
describes. -/
theorem claim_C7 (E : Investor) (I : NewData) (ints : List String) (pd : Option Profile)
    (now : String) :
    ((mergeInvestors E I ints pd now).bio ≠ E.bio →
        jsTruthyStr I.bio = true ∧ (mergeInvestors E I ints pd now).bio = I.bio ∧
          jsStrLen E.bio < jsStrLen I.bio) ∧
      (∀ x ∈ E.interests, x ∈ (mergeInvestors E I ints pd now).interests) ∧
      (E.interests.Nodup →
        (mergeInvestors E I ints pd now).interests.Nodup ∧
          ∀ x, x ∈ (mergeInvestors E I ints pd now).interests ↔
            x ∈ E.interests ∨ x ∈ ints) ∧
      (mergeInvestors E I ints pd now).id = E.id ∧
      (mergeInvestors scenBexisting scenBnew ["FinTech"] none now).bio =
        some "a much longer and more detailed biography" ∧
      (mergeInvestors scenBexisting scenBnew ["FinTech"] none now).interests =
        ["SaaS", "FinTech"] ∧
      (mergeInvestors scenBexisting scenBnew ["FinTech"] none now).id = "h1" := by
  refine ⟨?_, ?_, ?_, rfl, rfl, rfl, rfl⟩
  · intro hne
    rcases fieldRuleBio_merge E.bio I.bio with h | ⟨h1, h2, h3⟩
    · exact absurd h hne
    · exact ⟨h1, h2, h3⟩
  · intro x hx
    exact (mergeInterests_mem E.interests ints x).mpr (Or.inl hx)
  · intro hnd
    exact ⟨mergeInterests_nodup E.interests ints hnd, fun x => mergeInterests_mem _ _ x⟩

/-- Witness for C7: Scenario B concretely, with the implication discharged at a
record whose bio actually changes. -/
theorem claim_C7_witness :
    (mergeInvestors scenBexisting scenBnew ["FinTech"] none "t1").bio ≠ scenBexisting.bio ∧
      jsTruthyStr scenBnew.bio = true ∧
      (mergeInvestors scenBexisting scenBnew ["FinTech"] none "t1").bio = scenBnew.bio ∧
      jsStrLen scenBexisting.bio < jsStrLen scenBnew.bio ∧
      (mergeInvestors scenBexisting scenBnew ["FinTech"] none "t1").interests =
        ["SaaS", "FinTech"] := by
  have h := claim_C7 scenBexisting scenBnew ["FinTech"] none "t1"
  have hne : (mergeInvestors scenBexisting scenBnew ["FinTech"] none "t1").bio ≠
      scenBexisting.bio := by decide
  have hb := h.1 hne
  exact ⟨hne, hb.1, hb.2.1, hb.2.2, h.2.2.2.2.2.1⟩

/-! ### Claim theorem: id generation (C8) -/

theorem length_byteHex (b : Nat) : (MD5.byteHex b).length = 2 := rfl

theorem length_flatMap_byteHex (l : List Nat) :
    (l.flatMap MD5.byteHex).length = 2 * l.length := by
  induction l with
  | nil => rfl
  | cons a t ih =>
    simp only [List.flatMap_cons, List.length_append, length_byteHex, ih, List.length_cons]
    omega

theorem length_digestBytes (msg : List Nat) : (MD5.digestBytes msg).length = 16 := by
  unfold MD5.digestBytes
  generalize (MD5.toBlocks (MD5.pad msg)).foldl MD5.processBlock
    (1732584193, 4023233417, 2562383102, 271733878) = t
  obtain ⟨a, b, c, d⟩ := t
  rfl

theorem length_md5HexChars (s : String) : (md5HexChars s).length = 32 := by
  unfold md5HexChars MD5.hexChars
  rw [length_flatMap_byteHex, length_digestBytes]

/-- C8: `generateInvestorId` is deterministic (it is a pure function of
`(name, source)`), always returns a 12-character id, and distinguishes
concrete distinct `(name, source)` pairs (the "overwhelming probability"
collision claim is witnessed at concrete inputs; it is a property of MD5 and
not formalizable in general). -/
theorem claim_C8 :
    (∀ name source : String, generateInvestorId name source = generateInvestorId name source) ∧
      (∀ name source : String, (generateInvestorId name source).length = 12) ∧
      generateInvestorId "Alice Smith" "X" ≠ generateInvestorId "Alice Smith" "Y" ∧
      generateInvestorId "Alice Smith" "X" ≠ generateInvestorId "Bob" "X" := by
  refine ⟨fun _ _ => rfl, ?_, by decide, by decide⟩
  intro name source
  show ((md5HexChars (name ++ "-" ++ source)).take 12).length = 12
  rw [List.length_take, length_md5HexChars]
  decide

/-! ### Claim theorems: keyword matching (C9) -/

theorem scored_snd (investors : List Investor) (queryLower : String) (keywords : List String)
    (p : Investor × Nat)
    (hp : p ∈ (investors.map (fun inv => (inv, scoreInvestor queryLower keywords inv))).filter
      (fun p => decide (p.2 > 0))) :
    p.2 = scoreInvestor queryLower keywords p.1 ∧ 0 < p.2 := by
  rcases List.mem_filter.mp hp with ⟨hmem, hpos⟩
  rcases List.mem_map.mp hmem with ⟨inv, _, rfl⟩
  exact ⟨rfl, by simpa using hpos⟩

/-- C9 (amended): whenever the query yields at least one keyword longer than
two characters, `matchInvestorsByKeywords` returns only investors with strictly
positive match score, sorted in descending score order, and an exact name match
contributes 100 — strictly more than any other name contribution (at most 50)
and a floor for the whole score.  Without such a keyword, a query longer than
two characters returns the first 50 investors unscored (see the
counterexample). -/
theorem claim_C9 (investors : List Investor) (query : String)
    (hk : queryKeywords query ≠ []) :
    (∀ inv ∈ matchInvestorsByKeywords investors query,
        0 < scoreInvestor (jsToLower query) (queryKeywords query) inv) ∧
      ((matchInvestorsByKeywords investors query).map
          (scoreInvestor (jsToLower query) (queryKeywords query))).Sorted (· ≥ ·) ∧
      (∀ inv : Investor, jsToLower inv.name = jsToLower query →
        nameMatchScore (jsToLower query) (jsToLower inv.name) = 100 ∧
          100 ≤ scoreInvestor (jsToLower query) (queryKeywords query) inv) ∧
      (∀ inv : Investor, jsToLower inv.name ≠ jsToLower query →
        nameMatchScore (jsToLower query) (jsToLower inv.name) ≤ 50) := by
  have hexact : ∀ inv : Investor, jsToLower inv.name = jsToLower query →
      nameMatchScore (jsToLower query) (jsToLower inv.name) = 100 ∧
        100 ≤ scoreInvestor (jsToLower query) (queryKeywords query) inv := by
    intro inv heq
    have hns : nameMatchScore (jsToLower query) (jsToLower inv.name) = 100 := by
      unfold nameMatchScore
      rw [if_pos heq]
    refine ⟨hns, ?_⟩
    have hdecomp : scoreInvestor (jsToLower query) (queryKeywords query) inv =
        nameMatchScore (jsToLower query) (jsToLower inv.name) +
          keywordScore (queryKeywords query) (jsToLower inv.name)
            (jsToLower inv.name ++ " " ++ jsToLower (inv.bio.getD "") ++ " " ++
              jsToLower (inv.location.getD "") ++ " " ++
              joinSpace (inv.interests.map jsToLower)) +
          interestScore (jsToLower query) (queryKeywords query) inv.interests := rfl
    rw [hdecomp, hns]
    omega
  have hinexact : ∀ inv : Investor, jsToLower inv.name ≠ jsToLower query →
      nameMatchScore (jsToLower query) (jsToLower inv.name) ≤ 50 := by
    intro inv hne
    unfold nameMatchScore
    rw [if_neg hne]
    split
    · omega
    · omega
  by_cases hemp : investors.length = 0
  · have hres : matchInvestorsByKeywords investors query = [] := by
      unfold matchInvestorsByKeywords
      rw [if_pos hemp]
    rw [hres]
    exact ⟨fun inv h => absurd h (List.not_mem_nil inv), List.sorted_nil, hexact, hinexact⟩
  · have hklen : ¬(queryKeywords query).length = 0 := by
      intro h
      exact hk (List.length_eq_zero.mp h)
    have hres : matchInvestorsByKeywords investors query =
        (((investors.map (fun inv =>
            (inv, scoreInvestor (jsToLower query) (queryKeywords query) inv))).filter
              (fun p => decide (p.2 > 0))).mergeSort
          (fun a b => decide (b.2 ≤ a.2))).map Prod.fst := by
      unfold matchInvestorsByKeywords
      rw [if_neg hemp, if_neg hklen]
    rw [hres]
    set scored := (investors.map (fun inv =>
        (inv, scoreInvestor (jsToLower query) (queryKeywords query) inv))).filter
      (fun p => decide (p.2 > 0)) with hscored
    have hmem : ∀ p ∈ scored.mergeSort (fun a b => decide (b.2 ≤ a.2)),
        p.2 = scoreInvestor (jsToLower query) (queryKeywords query) p.1 ∧ 0 < p.2 := by
      intro p hp
      exact scored_snd investors (jsToLower query) (queryKeywords query) p
        (List.mem_mergeSort.mp hp)
    refine ⟨?_, ?_, hexact, hinexact⟩
    · intro inv hinv
      rcases List.mem_map.mp hinv with ⟨p, hp, rfl⟩
      have h := hmem p hp
      rw [← h.1]
      exact h.2
    · have hpw : (scored.mergeSort (fun a b => decide (b.2 ≤ a.2))).Pairwise
          (fun a b => decide (b.2 ≤ a.2) = true) := by
        exact List.sorted_mergeSort
          (by
            intro a b c hab hbc
            simp only [decide_eq_true_eq] at *
            omega)
          (by
            intro a b
            simp only [Bool.or_eq_true, decide_eq_true_eq]
            omega)
          scored
      have hpw2 : (scored.mergeSort (fun a b => decide (b.2 ≤ a.2))).Pairwise
          (fun a b => b.2 ≤ a.2) :=
        hpw.imp (by intro a b h; simpa using h)
      rw [List.map_map]
      have hcongr : (scored.mergeSort (fun a b => decide (b.2 ≤ a.2))).map
          ((scoreInvestor (jsToLower query) (queryKeywords query)) ∘ Prod.fst) =
          (scored.mergeSort (fun a b => decide (b.2 ≤ a.2))).map Prod.snd := by
        apply List.map_congr_left
        intro p hp
        exact ((hmem p hp).1).symm
      rw [hcongr]
      exact List.pairwise_map.mpr (hpw2.imp (fun h => h))

/-- Counterexample for C9 as stated: for the query `"ab cd"` — longer than two
characters but with no keyword longer than two characters — the matcher returns
an investor whose score is 0, so the "only strictly positive scores" claim
fails without the keyword hypothesis. -/
theorem claim_C9_counterexample :
    matchInvestorsByKeywords [zzzInvestor] "ab cd" = [zzzInvestor] ∧
      scoreInvestor (jsToLower "ab cd") (queryKeywords "ab cd") zzzInvestor = 0 :=
  ⟨by decide, by decide⟩

/-- Witness for C9: the query `"fintech startups"` has a usable keyword, and
the returned records all score positively. -/
theorem claim_C9_witness :
    queryKeywords "fintech startups" ≠ [] ∧
      ∀ inv ∈ matchInvestorsByKeywords [fintechInvestor, zzzInvestor] "fintech startups",
        0 < scoreInvestor (jsToLower "fintech startups") (queryKeywords "fintech startups") inv :=
  ⟨by decide,
    (claim_C9 [fintechInvestor, zzzInvestor] "fintech startups" (by decide)).1⟩

/-! ### Claim theorems: the search route policy (C1) -/

theorem searchGET_okEmpty_some (query : String) (existing : List Investor)
    (cached : List Investor) (canonicalCache : Option (List Investor)) (now : String)
    (hq : query ≠ "") :
    searchGET query (.ok []) existing (some cached) canonicalCache now =
      if cached.length > 0 then
        ⟨⟨(deduplicateInvestors cached).unique.take 50,
          (deduplicateInvestors cached).unique.length, true⟩, true⟩
      else ⟨keywordFallbackResponse canonicalCache query, true⟩ := by
  unfold searchGET
  rw [if_neg hq]
  rfl

theorem searchGET_okEmpty_none (query : String) (existing : List Investor)
    (canonicalCache : Option (List Investor)) (now : String) (hq : query ≠ "") :
    searchGET query (.ok []) existing none canonicalCache now =
      ⟨keywordFallbackResponse canonicalCache query, true⟩ := by
  unfold searchGET
  rw [if_neg hq]
  rfl

/-- C1 (amended): the generative source adapter is invoked for every non-empty
query; the per-query cache and the canonical-set keyword fast path are
consulted only when the adapter returns no candidates.  In that case a
non-empty per-query cache entry is returned deduplicated and bounded to 50
records, and with an empty or absent per-query cache the route falls back to
the keyword match against the canonical-set cache. -/
theorem claim_C1 (query : String) (existing : List Investor)
    (queryCache canonicalCache : Option (List Investor)) (now : String) (hq : query ≠ "") :
    (searchGET query (.ok []) existing queryCache canonicalCache now).adapterInvoked = true ∧
      (∀ cached, queryCache = some cached → cached ≠ [] →
        (searchGET query (.ok []) existing queryCache canonicalCache now).response =
          ⟨(deduplicateInvestors cached).unique.take 50,
            (deduplicateInvestors cached).unique.length, true⟩) ∧
      ((queryCache = none ∨ queryCache = some []) →
        (searchGET query (.ok []) existing queryCache canonicalCache now).response =
          keywordFallbackResponse canonicalCache query) := by
  refine ⟨?_, ?_, ?_⟩
  · cases queryCache with
    | none =>
      rw [searchGET_okEmpty_none query existing canonicalCache now hq]
    | some cached =>
      rw [searchGET_okEmpty_some query existing cached canonicalCache now hq]
      by_cases hlen : cached.length > 0
      · rw [if_pos hlen]
      · rw [if_neg hlen]
  · intro cached hqc hne
    subst hqc
    rw [searchGET_okEmpty_some query existing cached canonicalCache now hq,
      if_pos (List.length_pos.mpr hne)]
  · intro h
    rcases h with rfl | rfl
    · rw [searchGET_okEmpty_none query existing canonicalCache now hq]
    · rw [searchGET_okEmpty_some query existing [] canonicalCache now hq]
      rw [if_neg (by decide)]

/-- Counterexample for C1 as stated: with a warm non-empty per-query cache, a
non-empty query still invokes the generative source adapter, and when the
adapter returns candidates the response is built from them, not from the
cache. -/
theorem claim_C1_counterexample :
    (searchGET "ai" (.ok [bobScraped]) [] (some [sampleAlice]) none "t1").adapterInvoked =
        true ∧
      (searchGET "ai" (.ok [bobScraped]) [] (some [sampleAlice]) none "t1").response.investors ≠
        [sampleAlice] :=
  ⟨by decide, by decide⟩

/-- Witness for C1: when the adapter returns no candidates, a non-empty cached
entry is served deduplicated, bounded to 50, and flagged as cached. -/
theorem claim_C1_witness :
    ("ai" : String) ≠ "" ∧
      (searchGET "ai" (.ok []) [] (some [sampleAlice]) none "t1").adapterInvoked = true ∧
      (searchGET "ai" (.ok []) [] (some [sampleAlice]) none "t1").response =
        ⟨(deduplicateInvestors [sampleAlice]).unique.take 50,
          (deduplicateInvestors [sampleAlice]).unique.length, true⟩ := by
  have h := claim_C1 "ai" [] (some [sampleAlice]) none "t1" (by decide)
  exact ⟨by decide, h.1, h.2.1 [sampleAlice] rfl (by decide)⟩

/-! ### Claim theorems: the accumulation job (C4, C5) -/

theorem entry_coalesces (st : JobState) (q0 q : Option String) (locked : Bool)
    (fresh p : Nat) (h1 : st.isRunning = true)
    (h2 : st.runningQuery = some (normalizedQueryOf q0)) (h3 : st.runningPromise = some p)
    (hq : normalizedQueryOf q = normalizedQueryOf q0) :
    runScrapingJobEntry st q locked fresh = (.awaitInFlight p, st) := by
  unfold runScrapingJobEntry
  rw [if_pos ⟨by rw [h1], by rw [hq]; exact h2, by rw [h3]; rfl⟩]
  rw [h3]
  rfl

/-- C4: while a run for query `q0` is RUNNING in-process with a live promise,
every call whose query normalizes to the same string awaits and resolves to
that same promise, the coordination state is unchanged, and the generative
source adapter is invoked exactly once across the started run plus all N
coalesced callers. -/
theorem claim_C4 (st : JobState) (p : Nat) (q0 : Option String)
    (calls : List (Option String × Bool × Nat)) (h1 : st.isRunning = true)
    (h2 : st.runningQuery = some (normalizedQueryOf q0)) (h3 : st.runningPromise = some p)
    (hcalls : ∀ c ∈ calls, normalizedQueryOf c.1 = normalizedQueryOf q0) :
    (∀ o ∈ (processCalls st calls).1, o = AccumOutcome.awaitInFlight p) ∧
      (processCalls st calls).2 = st ∧
      adapterCalls (.startedRun p) + ((processCalls st calls).1.map adapterCalls).sum = 1 := by
  induction calls with
  | nil =>
    exact ⟨fun o ho => absurd ho (List.not_mem_nil o), rfl, rfl⟩
  | cons c rest ih =>
    obtain ⟨q, locked, fresh⟩ := c
    have he := entry_coalesces st q0 q locked fresh p h1 h2 h3
      (hcalls _ (List.mem_cons_self _ _))
    obtain ⟨ihA, ihB, ihC⟩ := ih (fun c hc => hcalls c (List.mem_cons_of_mem _ hc))
    have heq : processCalls st ((q, locked, fresh) :: rest) =
        (AccumOutcome.awaitInFlight p :: (processCalls st rest).1,
          (processCalls st rest).2) := by
      show ((runScrapingJobEntry st q locked fresh).1 ::
            (processCalls (runScrapingJobEntry st q locked fresh).2 rest).1,
          (processCalls (runScrapingJobEntry st q locked fresh).2 rest).2) = _
      rw [he]
    rw [heq]
    refine ⟨?_, ihB, ?_⟩
    · intro o ho
      rcases List.mem_cons.mp ho with rfl | ho
      · rfl
      · exact ihA o ho
    · simp only [List.map_cons, List.sum_cons] at *
      have hzero : adapterCalls (AccumOutcome.awaitInFlight p) = 0 := rfl
      rw [hzero]
      omega

/-- Witness for C4: two concurrent callers whose queries normalize to the
in-flight `"fintech"` both await promise 7, the state is unchanged, and the
adapter is invoked once in total. -/
theorem claim_C4_witness :
    (∀ o ∈ (processCalls ⟨true, some "fintech", some 7⟩
        [(some "FinTech ", false, 8), (some " fintech", true, 9)]).1,
      o = AccumOutcome.awaitInFlight 7) ∧
      (processCalls ⟨true, some "fintech", some 7⟩
        [(some "FinTech ", false, 8), (some " fintech", true, 9)]).2 =
        ⟨true, some "fintech", some 7⟩ ∧
      adapterCalls (.startedRun 7) +
        ((processCalls ⟨true, some "fintech", some 7⟩
          [(some "FinTech ", false, 8), (some " fintech", true, 9)]).1.map adapterCalls).sum =
        1 :=
  claim_C4 ⟨true, some "fintech", some 7⟩ 7 (some "fintech")
    [(some "FinTech ", false, 8), (some " fintech", true, 9)] rfl (by decide) rfl (by decide)

/-- C5: the promise of a run always ends with the in-process state machine
reset to idle and the distributed lock released (the `finally` cleanup runs on
success and failure alike), and when any step between fetching candidates and
refreshing the cache throws, the exception is caught and an empty list is
returned instead of propagating. -/
theorem claim_C5 (env : JobEnv) (existing : List Investor) (now : String) :
    (runScrapingJobPromise env existing now).2.1 = idleJobState ∧
      (runScrapingJobPromise env existing now).2.2 = false ∧
      ∀ e : Unit, runJobCore env existing now = .error e →
        (runScrapingJobPromise env existing now).1 = [] := by
  unfold runScrapingJobPromise
  cases h : runJobCore env existing now with
  | ok r =>
    refine ⟨rfl, rfl, fun e he => ?_⟩
    exact absurd he (by simp)
  | error e' =>
    exact ⟨rfl, rfl, fun e he => rfl⟩

/-- Witness for C5: a concrete environment whose candidate fetch throws yields
an empty result with the state idle and the lock released. -/
theorem claim_C5_witness :
    runJobCore failingFetchEnv [] "t1" = .error () ∧
      (runScrapingJobPromise failingFetchEnv [] "t1").1 = [] ∧
      (runScrapingJobPromise failingFetchEnv [] "t1").2.1 = idleJobState ∧
      (runScrapingJobPromise failingFetchEnv [] "t1").2.2 = false := by
  have hcore : runJobCore failingFetchEnv [] "t1" = .error () := rfl
  have h := claim_C5 failingFetchEnv [] "t1"
  exact ⟨hcore, h.2.2 () hcore, h.1, h.2.1⟩

end InvestorApp
